import Mathlib

/-!
# A verification model of the UTXO block indexer

This file gives a shallow embedding, in Lean, of the core of the block
indexer: the schema guard (`validateBlockSchema`), the block validator
(`BlockValidator`), the persistent store (`Database`) and the orchestrating
service (`IndexerService`), together with theorems about their behaviour.

Modelling conventions:
* JavaScript numbers are modelled as exact rationals (`Rat`).  All the
  numeric operations the code performs on the relevant paths (addition,
  comparison, equality) are exact on the values of interest.
* Untrusted input (the argument of `processBlock`) is modelled by the
  `JsValue` type of dynamically-shaped JavaScript values.
* The PostgreSQL store is modelled by `DbState`: three tables held as lists
  of rows in insertion order.  A SQL `INSERT` appends a row (failing on a
  primary-key conflict, which the driver surfaces as a thrown error),
  `UPDATE ... WHERE <primary key> = x` rewrites the matching rows in place,
  `DELETE ... WHERE c` filters, `SELECT MAX`, `SELECT ... LIMIT`/first-row
  reads are list folds/finds.  A transaction block (`BEGIN`/`COMMIT` with
  `ROLLBACK` on error) is modelled by `Except`: on error the caller keeps
  the pre-call state.
* `createHash('sha256')...digest('hex')` is an external library call; it is
  modelled by an abstract hash parameter `hash : String → String` that all
  validator definitions take.  Every theorem quantifies over it.
-/

namespace Indexer

/-! ## JavaScript values (untrusted input) -/

/-- A dynamically-typed JavaScript value, as far as the code observes it:
`null`, `undefined`, booleans, (rational-modelled) numbers, strings, arrays
and plain objects. -/
inductive JsValue where
  | null
  | undefined
  | jsbool (b : Bool)
  | num (q : Rat)
  | str (s : String)
  | arr (elems : List JsValue)
  | obj (fields : List (String × JsValue))

/-- The JavaScript `typeof` operator (note `typeof null = "object"`). -/
def JsValue.typeof : JsValue → String
  | .null => "object"
  | .undefined => "undefined"
  | .jsbool _ => "boolean"
  | .num _ => "number"
  | .str _ => "string"
  | .arr _ => "object"
  | .obj _ => "object"

/-- JavaScript truthiness: `null`, `undefined`, `false`, `0` and the empty
string are falsy, everything else (in this value model) is truthy. -/
def JsValue.truthy : JsValue → Bool
  | .null => false
  | .undefined => false
  | .jsbool b => b
  | .num q => q != 0
  | .str s => s != ""
  | .arr _ => true
  | .obj _ => true

/-- Property access `v.name`: a missing field, or a field of a non-object,
reads as `undefined`. -/
def JsValue.getField : JsValue → String → JsValue
  | .obj fields, name => (((fields.find? (fun p => p.1 == name)).map Prod.snd)).getD .undefined
  | _, _ => .undefined

/-- The numeric value of a `JsValue`; only read under a `typeof = "number"`
guard, so the default is irrelevant. -/
def JsValue.asNum : JsValue → Rat
  | .num q => q
  | _ => 0

/-- The string value of a `JsValue`; only read under a `typeof = "string"`
guard. -/
def JsValue.asStr : JsValue → String
  | .str s => s
  | _ => ""

/-- `Array.isArray`. -/
def JsValue.isArr : JsValue → Bool
  | .arr _ => true
  | _ => false

/-- The elements of an array value; only read under an `Array.isArray`
guard. -/
def JsValue.asArr : JsValue → List JsValue
  | .arr l => l
  | _ => []

/-- The result value `{ isValid: boolean; error?: string }` returned by the
validators. -/
structure VResult where
  isValid : Bool
  error : Option String := none
  deriving DecidableEq, Repr

/-! ## Schema guard (`validateBlockSchema` / `validateTransactionSchema`) -/

/-- The `for` loop over `tx.inputs` in `validateTransactionSchema`,
carrying the element index used in the error messages. -/
def checkInputsSchema : Nat → List JsValue → VResult
  | _, [] => ⟨true, none⟩
  | i, input :: rest =>
    if ¬input.truthy ∨ input.typeof ≠ "object" then
      ⟨false, some s!"Input {i} must be an object"⟩
    else if (input.getField "txId").typeof ≠ "string" ∨ ¬(input.getField "txId").truthy then
      ⟨false, some s!"Input {i} txId must be a non-empty string"⟩
    else if (input.getField "index").typeof ≠ "number" ∨ (input.getField "index").asNum < 0 then
      ⟨false, some s!"Input {i} index must be a non-negative number"⟩
    else checkInputsSchema (i + 1) rest

/-- The `for` loop over `tx.outputs` in `validateTransactionSchema`. -/
def checkOutputsSchema : Nat → List JsValue → VResult
  | _, [] => ⟨true, none⟩
  | i, output :: rest =>
    if ¬output.truthy ∨ output.typeof ≠ "object" then
      ⟨false, some s!"Output {i} must be an object"⟩
    else if (output.getField "address").typeof ≠ "string" ∨ ¬(output.getField "address").truthy then
      ⟨false, some s!"Output {i} address must be a non-empty string"⟩
    else if (output.getField "value").typeof ≠ "number" ∨ (output.getField "value").asNum < 0 then
      ⟨false, some s!"Output {i} value must be a non-negative number"⟩
    else checkOutputsSchema (i + 1) rest

/-- `validateTransactionSchema` from `src/validators/index.ts`. -/
def validateTransactionSchema (tx : JsValue) : VResult :=
  if ¬tx.truthy ∨ tx.typeof ≠ "object" then
    ⟨false, some "Transaction must be an object"⟩
  else if (tx.getField "id").typeof ≠ "string" ∨ ¬(tx.getField "id").truthy then
    ⟨false, some "Transaction ID must be a non-empty string"⟩
  else if (tx.getField "inputs").isArr = false then
    ⟨false, some "Transaction inputs must be an array"⟩
  else if (tx.getField "outputs").isArr = false then
    ⟨false, some "Transaction outputs must be an array"⟩
  else
    let rIn := checkInputsSchema 0 (tx.getField "inputs").asArr
    if rIn.isValid then checkOutputsSchema 0 (tx.getField "outputs").asArr
    else rIn

/-- The `for` loop over `data.transactions` in `validateBlockSchema`,
wrapping a transaction failure as `Transaction i: <reason>`. -/
def checkBlockTxsSchema : Nat → List JsValue → VResult
  | _, [] => ⟨true, none⟩
  | i, tx :: rest =>
    let r := validateTransactionSchema tx
    let reason := r.error.getD ""
    if r.isValid then checkBlockTxsSchema (i + 1) rest
    else ⟨false, some s!"Transaction {i}: {reason}"⟩

/-- `validateBlockSchema` from `src/validators/index.ts`: the structural
gate run on the untrusted input before anything else. -/
def validateBlockSchema (data : JsValue) : VResult :=
  if ¬data.truthy ∨ data.typeof ≠ "object" then
    ⟨false, some "Block must be an object"⟩
  else if (data.getField "id").typeof ≠ "string" ∨ ¬(data.getField "id").truthy then
    ⟨false, some "Block ID must be a non-empty string"⟩
  else if (data.getField "height").typeof ≠ "number" ∨ (data.getField "height").asNum < 1 then
    ⟨false, some "Block height must be a positive number"⟩
  else if (data.getField "transactions").isArr = false then
    ⟨false, some "Block transactions must be an array"⟩
  else checkBlockTxsSchema 0 (data.getField "transactions").asArr

/-! ## Typed data model (`src/types/index.ts`) -/

/-- `Output` from `src/types/index.ts`. -/
structure Output where
  address : String
  value : Rat
  deriving DecidableEq, Repr

/-- `Input` from `src/types/index.ts` (`index` is a JavaScript number). -/
structure Input where
  txId : String
  index : Rat
  deriving DecidableEq, Repr

/-- `Transaction` from `src/types/index.ts`. -/
structure Transaction where
  id : String
  inputs : List Input
  outputs : List Output
  deriving DecidableEq, Repr

/-- `Block` from `src/types/index.ts`. -/
structure Block where
  id : String
  height : Rat
  transactions : List Transaction
  deriving DecidableEq, Repr

/-- `StoredOutput` from `src/types/index.ts`, as assembled by
`Database.getOutput` (the stored `output_index` column is the integer loop
counter used at insertion time). -/
structure StoredOutput where
  txId : String
  index : Nat
  address : String
  value : Rat
  spent : Bool
  deriving DecidableEq, Repr

/-- The TypeScript cast `blockData as Block` applied after the schema guard
passes: the downstream code reads exactly these fields of the raw value. -/
def jsToInput (v : JsValue) : Input :=
  ⟨(v.getField "txId").asStr, (v.getField "index").asNum⟩

/-- Projection of a raw output object to the typed `Output`. -/
def jsToOutput (v : JsValue) : Output :=
  ⟨(v.getField "address").asStr, (v.getField "value").asNum⟩

/-- Projection of a raw transaction object to the typed `Transaction`. -/
def jsToTransaction (v : JsValue) : Transaction :=
  ⟨(v.getField "id").asStr,
   (v.getField "inputs").asArr.map jsToInput,
   (v.getField "outputs").asArr.map jsToOutput⟩

/-- Projection of a raw block object to the typed `Block`. -/
def jsToBlock (v : JsValue) : Block :=
  ⟨(v.getField "id").asStr,
   (v.getField "height").asNum,
   (v.getField "transactions").asArr.map jsToTransaction⟩

/-! ## The store (`Database`, `src/databases/index.ts`) -/

/-- A row of the `blocks` table (`id`, `height`, `data`). -/
structure BlockRow where
  id : String
  height : Rat
  data : Block
  deriving DecidableEq, Repr

/-- A row of the `transactions` table. -/
structure TxRow where
  id : String
  blockId : String
  blockHeight : Rat
  data : Transaction
  deriving DecidableEq, Repr

/-- A row of the `outputs` table.  `(txId, outputIndex)` is the primary
key; `spentInTx` is the nullable `spent_in_tx` column. -/
structure OutputRow where
  txId : String
  outputIndex : Nat
  address : String
  value : Rat
  spent : Bool
  spentInTx : Option String
  blockHeight : Rat
  deriving DecidableEq, Repr

/-- The persistent state: the three tables, rows in insertion order.
(The `balances` table is created but never read or written by the code
under consideration, so it is omitted.) -/
structure DbState where
  blocks : List BlockRow
  transactions : List TxRow
  outputs : List OutputRow
  deriving DecidableEq, Repr

/-- The state of a freshly initialized database. -/
def emptyDb : DbState := ⟨[], [], []⟩

namespace Database

/-- The `UPDATE outputs SET spent = TRUE, spent_in_tx = $1 WHERE tx_id = $2
AND output_index = $3` statement run for one input of transaction `txId`. -/
def markOne (txId : String) (inp : Input) (rows : List OutputRow) : List OutputRow :=
  rows.map fun o =>
    if o.txId = inp.txId ∧ (o.outputIndex : Rat) = inp.index then
      { o with spent := true, spentInTx := some txId }
    else o

/-- The `for` loop marking every input of a transaction as spent. -/
def markInputs (txId : String) : List Input → List OutputRow → List OutputRow
  | [], rows => rows
  | inp :: rest, rows => markInputs txId rest (markOne txId inp rows)

/-- The `for` loop inserting a transaction's outputs, with the running
index `i` as `output_index`; an `INSERT` conflicting with the
`(tx_id, output_index)` primary key throws. -/
def insertOutputs (txId : String) (bh : Rat) : Nat → List Output → List OutputRow →
    Except String (List OutputRow)
  | _, [], rows => .ok rows
  | i, out :: rest, rows =>
    if rows.any (fun o => o.txId = txId ∧ o.outputIndex = i) then
      .error "duplicate key value violates unique constraint on outputs"
    else
      insertOutputs txId bh (i + 1) rest
        (rows ++ [⟨txId, i, out.address, out.value, false, none, bh⟩])

/-- The body of the per-transaction loop of `saveBlock`: insert the
transaction row (throwing on a duplicate id), insert its outputs, then mark
its inputs as spent. -/
def saveTx (tx : Transaction) (blockId : String) (bh : Rat) (s : DbState) :
    Except String DbState :=
  if s.transactions.any (fun t => t.id = tx.id) then
    .error "duplicate key value violates unique constraint on transactions"
  else
    match insertOutputs tx.id bh 0 tx.outputs
        (s.outputs) with
    | .error e => .error e
    | .ok outs =>
      .ok { s with
            transactions := s.transactions ++ [⟨tx.id, blockId, bh, tx⟩],
            outputs := markInputs tx.id tx.inputs outs }

/-- The per-transaction loop of `saveBlock`. -/
def saveTxs (blockId : String) (bh : Rat) : List Transaction → DbState →
    Except String DbState
  | [], s => .ok s
  | tx :: rest, s =>
    match saveTx tx blockId bh s with
    | .error e => .error e
    | .ok s' => saveTxs blockId bh rest s'

/-- `Database.saveBlock`: one SQL transaction inserting the block row, then
every transaction with its outputs, then marking all spent inputs.  An
error anywhere (modelled: a primary-key conflict) rolls the whole thing
back — the caller keeps the pre-call state. -/
def saveBlock (block : Block) (s : DbState) : Except String DbState :=
  if s.blocks.any (fun r => r.id = block.id ∨ r.height = block.height) then
    .error "duplicate key value violates unique constraint on blocks"
  else
    saveTxs block.id block.height block.transactions
      { s with blocks := s.blocks ++ [⟨block.id, block.height, block⟩] }

/-- `SELECT MAX(height) FROM blocks`: `none` on an empty table. -/
def maxHeight : List BlockRow → Option Rat
  | [] => none
  | b :: rest =>
    match maxHeight rest with
    | none => some b.height
    | some m => some (max b.height m)

/-- `Database.getCurrentHeight`: `MAX(height)`, with the JavaScript
`|| 0` turning the empty-table `null` into `0` (on a number it only
replaces `0` by `0`). -/
def getCurrentHeight (s : DbState) : Rat :=
  match maxHeight s.blocks with
  | none => 0
  | some m => if m = 0 then 0 else m

/-- The first `outputs` row matching `tx_id = txId AND output_index =
index` (the query parameter is a JavaScript number). -/
def findOutputRow (s : DbState) (txId : String) (index : Rat) : Option OutputRow :=
  s.outputs.find? (fun o => o.txId = txId ∧ (o.outputIndex : Rat) = index)

/-- `Database.getOutput`: project the found row to a `StoredOutput`, or
`null`. -/
def getOutput (s : DbState) (txId : String) (index : Rat) : Option StoredOutput :=
  (findOutputRow s txId index).map fun row =>
    ⟨row.txId, row.outputIndex, row.address, row.value, row.spent⟩

/-- `Database.getBalance`: the SQL aggregate
`SUM(CASE WHEN spent = FALSE THEN value ELSE 0 END) -
 SUM(CASE WHEN spent = TRUE THEN value ELSE 0 END)` over the rows with the
given address (`COALESCE`/`|| 0` give `0` when no rows exist). -/
def getBalance (s : DbState) (address : String) : Rat :=
  let rows := s.outputs.filter (fun o => o.address = address)
  ((rows.map (fun o => if o.spent = false then o.value else 0)).sum)
    - ((rows.map (fun o => if o.spent = true then o.value else 0)).sum)

/-- The join condition of the rollback query: the row is spent and its
`spent_in_tx` matches a transaction whose block height exceeds the target.
The subsequent `UPDATE`s are keyed by the `(tx_id, output_index)` primary
key of the selected rows, i.e. they un-mark exactly these rows. -/
def shouldUnmark (txs : List TxRow) (height : Rat) (o : OutputRow) : Prop :=
  o.spent = true ∧ ∃ t ∈ txs, o.spentInTx = some t.id ∧ height < t.blockHeight

instance (txs : List TxRow) (height : Rat) (o : OutputRow) :
    Decidable (shouldUnmark txs height o) := by
  unfold shouldUnmark
  exact inferInstance

/-- `Database.rollbackToHeight`: in one SQL transaction, un-mark every
output spent by a transaction of a block above the target height
(`spent = FALSE, spent_in_tx = NULL`), then delete all outputs,
transactions and blocks above the target height. -/
def rollbackToHeight (height : Rat) (s : DbState) : DbState :=
  let unmarked := s.outputs.map fun o =>
    if shouldUnmark s.transactions height o then
      { o with spent := false, spentInTx := none }
    else o
  { blocks := s.blocks.filter (fun b => ¬height < b.height),
    transactions := s.transactions.filter (fun t => ¬height < t.blockHeight),
    outputs := unmarked.filter (fun o => ¬height < o.blockHeight) }

end Database

/-! ## The block validator (`BlockValidator`, `src/validators/index.ts`) -/

namespace BlockValidator

/-- `validateHeight`: the block's height must be exactly
`currentHeight + 1`. -/
def validateHeight (s : DbState) (height : Rat) : VResult :=
  let currentHeight := Database.getCurrentHeight s
  if height ≠ currentHeight + 1 then
    ⟨false, some s!"Invalid height. Expected {currentHeight + 1}, got {height}"⟩
  else ⟨true, none⟩

/-- `validateBlockId`: recompute the id as the hash of the height's decimal
string concatenated with the lexicographically sorted transaction ids
(JavaScript `Array.prototype.sort` with the default string comparison),
and require an exact match. -/
def validateBlockId (hash : String → String) (block : Block) : VResult :=
  let transactionIds := List.insertionSort (· ≤ ·) (block.transactions.map Transaction.id)
  let concatenated := toString block.height ++ String.join transactionIds
  let expectedId := hash concatenated
  if block.id ≠ expectedId then
    ⟨false, some s!"Invalid block ID. Expected {expectedId}, got {block.id}"⟩
  else ⟨true, none⟩

/-- The input loop of `validateTransaction`: resolve each input against the
store, failing on a missing or already-spent referenced output, and
accumulate the input sum. -/
def computeInputSum (s : DbState) : List Input → Except VResult Rat
  | [] => .ok 0
  | inp :: rest =>
    match Database.getOutput s inp.txId inp.index with
    | none => .error ⟨false, some s!"Referenced output not found: {inp.txId}:{inp.index}"⟩
    | some output =>
      if output.spent then
        .error ⟨false, some s!"Output already spent: {inp.txId}:{inp.index}"⟩
      else
        match computeInputSum s rest with
        | .error e => .error e
        | .ok acc => .ok (output.value + acc)

/-- The output loop of `validateTransaction`: reject negative values and
accumulate the output sum. -/
def computeOutputSum : List Output → Except VResult Rat
  | [] => .ok 0
  | output :: rest =>
    if output.value < 0 then
      .error ⟨false, some s!"Negative output value not allowed: {output.value}"⟩
    else
      match computeOutputSum rest with
      | .error e => .error e
      | .ok acc => .ok (output.value + acc)

/-- `validateTransaction`: inputs resolve and are unspent, outputs are
non-negative, and the sums agree. -/
def validateTransaction (s : DbState) (transaction : Transaction) : VResult :=
  match computeInputSum s transaction.inputs with
  | .error e => e
  | .ok inputSum =>
    match computeOutputSum transaction.outputs with
    | .error e => e
    | .ok outputSum =>
      if inputSum ≠ outputSum then
        ⟨false, some s!"Input sum ({inputSum}) does not equal output sum ({outputSum})"⟩
      else ⟨true, none⟩

/-- The transaction loop of `validateBlock`: first failure wins. -/
def validateTxs (s : DbState) : List Transaction → VResult
  | [] => ⟨true, none⟩
  | tx :: rest =>
    let r := validateTransaction s tx
    if r.isValid then validateTxs s rest else r

/-- `validateBlock`: height check, then id check, then the per-transaction
checks, in order, short-circuiting on the first failure.  It only reads the
store, never writes it. -/
def validateBlock (hash : String → String) (s : DbState) (block : Block) : VResult :=
  let heightValidation := validateHeight s block.height
  if heightValidation.isValid = false then heightValidation
  else
    let idValidation := validateBlockId hash block
    if idValidation.isValid = false then idValidation
    else validateTxs s block.transactions

end BlockValidator

/-! ## The orchestrating service (`IndexerService`, `src/services/indexer.ts`) -/

/-- The result value `{ success: boolean; error?: string }`. -/
structure ProcessResult where
  success : Bool
  error : Option String := none
  deriving DecidableEq, Repr

namespace IndexerService

/-- The typed tail of `processBlock` (after the schema guard): run the
block validator, then `saveBlock`; a thrown persistence error is caught and
returned as a failure carrying the underlying message. -/
def applyBlock (hash : String → String) (block : Block) (s : DbState) :
    ProcessResult × DbState :=
  let v := BlockValidator.validateBlock hash s block
  if v.isValid = false then (⟨false, v.error⟩, s)
  else
    match Database.saveBlock block s with
    | .error msg => (⟨false, some msg⟩, s)
    | .ok s' => (⟨true, none⟩, s')

/-- `IndexerService.processBlock`: schema guard, then block validator, then
`saveBlock`, in order, short-circuiting on the first failure; always
returns a result value, never throws. -/
def processBlock (hash : String → String) (blockData : JsValue) (s : DbState) :
    ProcessResult × DbState :=
  let schemaValidation := validateBlockSchema blockData
  if schemaValidation.isValid = false then (⟨false, schemaValidation.error⟩, s)
  else applyBlock hash (jsToBlock blockData) s

/-- `IndexerService.rollbackToHeight`: argument check, future-height check
and the 2000-block depth cap, in order, each returning a failure without
touching the store; otherwise delegate to the store's rollback. -/
def rollbackToHeight (height : JsValue) (s : DbState) : ProcessResult × DbState :=
  if height.typeof ≠ "number" ∨ height.asNum < 0 then
    (⟨false, some "Height must be a non-negative number"⟩, s)
  else
    let h := height.asNum
    let currentHeight := Database.getCurrentHeight s
    if currentHeight < h then
      (⟨false, some s!"Cannot rollback to height {h}, current height is {currentHeight}"⟩, s)
    else if 2000 < currentHeight - h then
      (⟨false, some s!"Cannot rollback more than 2000 blocks. Current: {currentHeight}, Target: {h}"⟩, s)
    else
      (⟨true, none⟩, Database.rollbackToHeight h s)

end IndexerService

/-! ## Test helpers (`spec/helpers/test-helpers.ts`) -/

/-- `createTestBlock` without a custom id: the id is computed exactly the
way `validateBlockId` recomputes it. -/
def createTestBlock (hash : String → String) (height : Rat)
    (transactions : List Transaction) : Block :=
  let transactionIds := List.insertionSort (· ≤ ·) (transactions.map Transaction.id)
  let concatenated := toString height ++ String.join transactionIds
  ⟨hash concatenated, height, transactions⟩

/-- `createGenesisBlock`: a height-1 block holding the single transaction
`genesis_tx` with no inputs and one output paying `value` to `address`. -/
def createGenesisBlock (hash : String → String) (address : String) (value : Rat) : Block :=
  createTestBlock hash 1 [⟨"genesis_tx", [], [⟨address, value⟩]⟩]

/-! ## Iterated application -/

/-- Apply a list of blocks in order through the validator-plus-save
pipeline, succeeding only if every block is accepted. -/
def applyChain (hash : String → String) : List Block → DbState → Option DbState
  | [], s => some s
  | b :: rest, s =>
    let (r, s') := IndexerService.applyBlock hash b s
    if r.success then applyChain hash rest s' else none

/-- Feed a list of raw values to `processBlock` in order, keeping whatever
state results (rejected submissions leave the state as is). -/
def processChain (hash : String → String) : List JsValue → DbState → DbState
  | [], s => s
  | v :: rest, s => processChain hash rest (IndexerService.processBlock hash v s).2

end Indexer

namespace Indexer

/-! ## Helper lemmas -/

/-- A block whose id was built by `createTestBlock` always passes the id
recomputation check, whatever the hash function is. -/
theorem validateBlockId_createTestBlock (hash : String → String) (height : Rat)
    (txs : List Transaction) :
    BlockValidator.validateBlockId hash (createTestBlock hash height txs) = ⟨true, none⟩ := by
  unfold BlockValidator.validateBlockId createTestBlock
  simp

/-- Folding a successful chain keeps a block count. -/
theorem applyChain_nil (hash : String → String) (s : DbState) :
    applyChain hash [] s = some s := rfl

/-! ## C1: `getBalance` subtracts spent outputs instead of ignoring them -/

/-- Apply blocks directly through `Database.saveBlock` (the way
`spec/database.spec.ts` drives the store), stopping on a thrown error. -/
def saveChain : List Block → DbState → Option DbState
  | [], s => some s
  | b :: rest, s =>
    match Database.saveBlock b s with
    | .error _ => none
    | .ok s' => saveChain rest s'

/-- Height-1 block paying 100 to `addr_1` (the fixture of
`spec/database.spec.ts`). -/
def c1Block1 : Block := ⟨"block_1", 1, [⟨"tx_1", [], [⟨"addr_1", 100⟩]⟩]⟩

/-- Height-2 block spending that output into `addr_2`. -/
def c1Block2 : Block := ⟨"block_2", 2, [⟨"tx_2", [⟨"tx_1", 0⟩], [⟨"addr_2", 100⟩]⟩]⟩

/-- C1: after `addr_1`'s only output (value 100) is marked spent by an
applied block, `getBalance "addr_1"` evaluates to `-100`, not the `0` the
specification (and the repository's own test suite) requires: the SQL
aggregate subtracts the spent values instead of ignoring them. -/
theorem getBalance_subtracts_spent_outputs :
    (saveChain [c1Block1, c1Block2] emptyDb).map
        (fun s => Database.getBalance s "addr_1") = some (-100)
    ∧ (saveChain [c1Block1, c1Block2] emptyDb).map
        (fun s => Database.getBalance s "addr_2") = some 100 := by
  constructor <;> with_unfolding_all decide

/-! ## C3: the genesis block is not exempt from the sum-conservation rule -/

/-- C3: on an empty ledger the canonical genesis block (one zero-input
transaction paying 100 to `addr1`, exactly as built by
`createGenesisBlock` in the repository's test helpers) is rejected by the
block validator with an input/output sum mismatch, for every hash
function: `validateTransaction` has no height-1 exemption, so the block is
never applied and the balance stays 0 — contradicting the claimed (and
repository-tested) behaviour. -/
theorem genesis_block_rejected_by_sum_rule (hash : String → String) :
    BlockValidator.validateBlock hash emptyDb (createGenesisBlock hash "addr1" 100)
      = ⟨false, some "Input sum (0) does not equal output sum (100)"⟩
    ∧ IndexerService.applyBlock hash (createGenesisBlock hash "addr1" 100) emptyDb
      = (⟨false, some "Input sum (0) does not equal output sum (100)"⟩, emptyDb)
    ∧ Database.getBalance emptyDb "addr1" = 0 := by
  have hmain : BlockValidator.validateBlock hash emptyDb (createGenesisBlock hash "addr1" 100)
      = ⟨false, some "Input sum (0) does not equal output sum (100)"⟩ := by
    unfold BlockValidator.validateBlock
    rw [show createGenesisBlock hash "addr1" 100
        = createTestBlock hash 1 [⟨"genesis_tx", [], [⟨"addr1", 100⟩]⟩] from rfl]
    rw [validateBlockId_createTestBlock]
    simp only [createTestBlock]
    with_unfolding_all decide
  refine ⟨hmain, ?_, by with_unfolding_all decide⟩
  unfold IndexerService.applyBlock
  rw [hmain]
  rfl

/-! ## C9: what the schema guard actually accepts -/

/-- A block value whose height is the non-integer 1.5 (and is otherwise
perfectly shaped). -/
def fractionalHeightBlock : JsValue :=
  .obj [("id", .str "block1"), ("height", .num (3/2)), ("transactions", .arr [])]

/-- A block value containing an input whose index is the non-integer 0.5
(and is otherwise perfectly shaped). -/
def fractionalIndexBlock : JsValue :=
  .obj [("id", .str "block1"), ("height", .num 1),
        ("transactions", .arr [.obj [("id", .str "tx1"),
          ("inputs", .arr [.obj [("txId", .str "tx0"), ("index", .num (1/2))]]),
          ("outputs", .arr [])]])]

/-- C9 counterexample: the schema guard accepts a block whose height is
1.5 and a block with an input index of 0.5 — it checks `height < 1` and
`index < 0` but never integrality, contradicting the claim that these are
rejected. -/
theorem schema_accepts_fractional_numbers :
    validateBlockSchema fractionalHeightBlock = ⟨true, none⟩
    ∧ validateBlockSchema fractionalIndexBlock = ⟨true, none⟩ := by
  constructor <;> with_unfolding_all decide

/-- Spec-side reading: a value that is a non-empty string. -/
def isNonEmptyStrVal (v : JsValue) : Bool := v.typeof == "string" && v.truthy

/-- Spec-side reading of a structurally acceptable input: an object with a
non-empty string `txId` and a numeric, non-negative `index`. -/
def inputShapeOk (v : JsValue) : Bool :=
  v.truthy && v.typeof == "object" && isNonEmptyStrVal (v.getField "txId")
    && (v.getField "index").typeof == "number" && decide (0 ≤ (v.getField "index").asNum)

/-- Spec-side reading of a structurally acceptable output: an object with
a non-empty string `address` and a numeric, non-negative `value`. -/
def outputShapeOk (v : JsValue) : Bool :=
  v.truthy && v.typeof == "object" && isNonEmptyStrVal (v.getField "address")
    && (v.getField "value").typeof == "number" && decide (0 ≤ (v.getField "value").asNum)

/-- Spec-side reading of a structurally acceptable transaction. -/
def txShapeOk (v : JsValue) : Bool :=
  v.truthy && v.typeof == "object" && isNonEmptyStrVal (v.getField "id")
    && (v.getField "inputs").isArr && (v.getField "outputs").isArr
    && (v.getField "inputs").asArr.all inputShapeOk
    && (v.getField "outputs").asArr.all outputShapeOk

/-- Spec-side reading of a structurally acceptable block: an object with a
non-empty string `id`, a numeric height that is at least 1 (integrality is
not required), and a sequence of acceptable transactions. -/
def blockShapeOk (v : JsValue) : Bool :=
  v.truthy && v.typeof == "object" && isNonEmptyStrVal (v.getField "id")
    && (v.getField "height").typeof == "number" && decide (1 ≤ (v.getField "height").asNum)
    && (v.getField "transactions").isArr
    && (v.getField "transactions").asArr.all txShapeOk

theorem checkInputsSchema_spec (l : List JsValue) : ∀ i,
    ((checkInputsSchema i l).isValid = l.all inputShapeOk)
    ∧ ((checkInputsSchema i l).error = none ↔ l.all inputShapeOk = true) := by
  induction l with
  | nil => intro i; simp [checkInputsSchema]
  | cons hd tl ih =>
    intro i
    simp only [checkInputsSchema, List.all_cons]
    split_ifs with h1 h2 h3
    · have hne : inputShapeOk hd = false := by
        simp only [inputShapeOk, isNonEmptyStrVal]
        rcases h1 with h | h <;> simp [h]
      simp [hne]
    · have hne : inputShapeOk hd = false := by
        simp only [inputShapeOk, isNonEmptyStrVal]
        rcases h2 with h | h <;> simp [h]
      simp [hne]
    · have hne : inputShapeOk hd = false := by
        simp only [inputShapeOk, isNonEmptyStrVal]
        rcases h3 with h | h
        · simp [h]
        · simp [not_le.mpr h]
      simp [hne]
    · have hok : inputShapeOk hd = true := by
        push_neg at h1 h2 h3
        simp only [inputShapeOk, isNonEmptyStrVal]
        simp [h1.1, h1.2, h2.1, h2.2, h3.1, h3.2]
      simp [hok, (ih (i + 1)).1, (ih (i + 1)).2]

theorem checkOutputsSchema_spec (l : List JsValue) : ∀ i,
    ((checkOutputsSchema i l).isValid = l.all outputShapeOk)
    ∧ ((checkOutputsSchema i l).error = none ↔ l.all outputShapeOk = true) := by
  induction l with
  | nil => intro i; simp [checkOutputsSchema]
  | cons hd tl ih =>
    intro i
    simp only [checkOutputsSchema, List.all_cons]
    split_ifs with h1 h2 h3
    · have hne : outputShapeOk hd = false := by
        simp only [outputShapeOk, isNonEmptyStrVal]
        rcases h1 with h | h <;> simp [h]
      simp [hne]
    · have hne : outputShapeOk hd = false := by
        simp only [outputShapeOk, isNonEmptyStrVal]
        rcases h2 with h | h <;> simp [h]
      simp [hne]
    · have hne : outputShapeOk hd = false := by
        simp only [outputShapeOk, isNonEmptyStrVal]
        rcases h3 with h | h
        · simp [h]
        · simp [not_le.mpr h]
      simp [hne]
    · have hok : outputShapeOk hd = true := by
        push_neg at h1 h2 h3
        simp only [outputShapeOk, isNonEmptyStrVal]
        simp [h1.1, h1.2, h2.1, h2.2, h3.1, h3.2]
      simp [hok, (ih (i + 1)).1, (ih (i + 1)).2]

theorem validateTransactionSchema_spec (tx : JsValue) :
    ((validateTransactionSchema tx).isValid = txShapeOk tx)
    ∧ ((validateTransactionSchema tx).error = none ↔ txShapeOk tx = true) := by
  simp only [validateTransactionSchema]
  split_ifs with h1 h2 h3 h4 hin
  · have hne : txShapeOk tx = false := by
      simp only [txShapeOk, isNonEmptyStrVal]
      rcases h1 with h | h <;> simp [h]
    simp [hne]
  · have hne : txShapeOk tx = false := by
      simp only [txShapeOk, isNonEmptyStrVal]
      rcases h2 with h | h <;> simp [h]
    simp [hne]
  · have hne : txShapeOk tx = false := by
      simp only [txShapeOk, isNonEmptyStrVal]
      simp [h3]
    simp [hne]
  · have hne : txShapeOk tx = false := by
      simp only [txShapeOk, isNonEmptyStrVal]
      simp [h4]
    simp [hne]
  · push_neg at h1 h2
    have hshape : txShapeOk tx =
        ((tx.getField "inputs").asArr.all inputShapeOk
          && (tx.getField "outputs").asArr.all outputShapeOk) := by
      simp only [txShapeOk, isNonEmptyStrVal]
      simp [h1.1, h1.2, h2.1, h2.2, h3, h4, Bool.and_assoc]
    have h1' := (checkInputsSchema_spec (tx.getField "inputs").asArr 0).1
    rw [hin] at h1'
    constructor
    · rw [(checkOutputsSchema_spec (tx.getField "outputs").asArr 0).1, hshape, ← h1']
      simp
    · rw [(checkOutputsSchema_spec (tx.getField "outputs").asArr 0).2, hshape, ← h1']
      simp
  · push_neg at h1 h2
    have hshape : txShapeOk tx =
        ((tx.getField "inputs").asArr.all inputShapeOk
          && (tx.getField "outputs").asArr.all outputShapeOk) := by
      simp only [txShapeOk, isNonEmptyStrVal]
      simp [h1.1, h1.2, h2.1, h2.2, h3, h4, Bool.and_assoc]
    have h1' := (checkInputsSchema_spec (tx.getField "inputs").asArr 0).1
    have h2' := (checkInputsSchema_spec (tx.getField "inputs").asArr 0).2
    simp only [Bool.not_eq_true] at hin
    rw [hin] at h1'
    constructor
    · rw [hshape, ← h1', hin]
      simp
    · rw [hshape, h2', ← h1']
      simp

theorem checkBlockTxsSchema_spec (l : List JsValue) : ∀ i,
    ((checkBlockTxsSchema i l).isValid = l.all txShapeOk)
    ∧ ((checkBlockTxsSchema i l).error = none ↔ l.all txShapeOk = true) := by
  induction l with
  | nil => intro i; simp [checkBlockTxsSchema]
  | cons hd tl ih =>
    intro i
    have hspec := validateTransactionSchema_spec hd
    simp only [checkBlockTxsSchema, List.all_cons]
    by_cases hv : (validateTransactionSchema hd).isValid = true
    · have htx : txShapeOk hd = true := (hspec.1.symm.trans hv)
      simp only [hv, if_true]
      simp [htx, (ih (i + 1)).1, (ih (i + 1)).2]
    · simp only [Bool.not_eq_true] at hv
      have htx : txShapeOk hd = false := (hspec.1.symm.trans hv)
      simp only [hv, Bool.false_eq_true, if_false]
      simp [htx]

/-- C9 (amended): the schema guard is a pure function of its input; it
accepts exactly the values that are objects with a non-empty string `id`,
a numeric height that is at least 1, and a sequence of transactions each
of which is an object with a non-empty string `id`, sequences of inputs
and outputs, every input an object with a non-empty string `txId` and a
numeric non-negative `index`, and every output an object with a non-empty
string `address` and a numeric non-negative `value`; integrality is not
checked, and every rejection carries an error reason. -/
theorem validateBlockSchema_characterization (v : JsValue) :
    ((validateBlockSchema v).isValid = blockShapeOk v)
    ∧ ((validateBlockSchema v).error = none ↔ blockShapeOk v = true) := by
  simp only [validateBlockSchema]
  split_ifs with h1 h2 h3 h4
  · have hne : blockShapeOk v = false := by
      simp only [blockShapeOk, isNonEmptyStrVal]
      rcases h1 with h | h <;> simp [h]
    simp [hne]
  · have hne : blockShapeOk v = false := by
      simp only [blockShapeOk, isNonEmptyStrVal]
      rcases h2 with h | h <;> simp [h]
    simp [hne]
  · have hne : blockShapeOk v = false := by
      simp only [blockShapeOk, isNonEmptyStrVal]
      rcases h3 with h | h
      · simp [h]
      · simp [not_le.mpr h]
    simp [hne]
  · have hne : blockShapeOk v = false := by
      simp only [blockShapeOk, isNonEmptyStrVal]
      simp [h4]
    simp [hne]
  · push_neg at h1 h2 h3
    have hshape : blockShapeOk v = (v.getField "transactions").asArr.all txShapeOk := by
      simp only [blockShapeOk, isNonEmptyStrVal]
      simp [h1.1, h1.2, h2.1, h2.2, h3.1, h3.2, h4]
    rw [hshape]
    exact ⟨(checkBlockTxsSchema_spec (v.getField "transactions").asArr 0).1,
           (checkBlockTxsSchema_spec (v.getField "transactions").asArr 0).2⟩

/-! ## C8: guards of the service-level rollback -/

/-- C8: `IndexerService.rollbackToHeight` rejects non-numeric or negative
heights, heights above the current tip, and rollbacks deeper than 2000
blocks, each time returning a failure with the untouched store state; in
every other case it delegates to the store's rollback and reports
success. -/
theorem rollbackToHeight_service_guards (v : JsValue) (s : DbState) :
    (v.typeof ≠ "number" ∨ v.asNum < 0 →
      IndexerService.rollbackToHeight v s
        = (⟨false, some "Height must be a non-negative number"⟩, s))
    ∧ (v.typeof = "number" → 0 ≤ v.asNum → Database.getCurrentHeight s < v.asNum →
      IndexerService.rollbackToHeight v s
        = (⟨false, some (let h := v.asNum
                         let currentHeight := Database.getCurrentHeight s
                         s!"Cannot rollback to height {h}, current height is {currentHeight}")⟩,
           s))
    ∧ (v.typeof = "number" → 0 ≤ v.asNum → v.asNum ≤ Database.getCurrentHeight s →
       2000 < Database.getCurrentHeight s - v.asNum →
      IndexerService.rollbackToHeight v s
        = (⟨false, some (let h := v.asNum
                         let currentHeight := Database.getCurrentHeight s
                         s!"Cannot rollback more than 2000 blocks. Current: {currentHeight}, Target: {h}")⟩,
           s))
    ∧ (v.typeof = "number" → 0 ≤ v.asNum → v.asNum ≤ Database.getCurrentHeight s →
       Database.getCurrentHeight s - v.asNum ≤ 2000 →
      IndexerService.rollbackToHeight v s
        = (⟨true, none⟩, Database.rollbackToHeight v.asNum s)) := by
  refine ⟨?_, ?_, ?_, ?_⟩
  · intro h
    simp only [IndexerService.rollbackToHeight]
    rw [if_pos h]
  · intro h0 h1 h2
    simp only [IndexerService.rollbackToHeight]
    rw [if_neg (by push_neg; exact ⟨h0, h1⟩)]
    rw [if_pos h2]
  · intro h0 h1 h2 h3
    simp only [IndexerService.rollbackToHeight]
    rw [if_neg (by push_neg; exact ⟨h0, h1⟩)]
    rw [if_neg (not_lt.mpr h2), if_pos h3]
  · intro h0 h1 h2 h3
    simp only [IndexerService.rollbackToHeight]
    rw [if_neg (by push_neg; exact ⟨h0, h1⟩)]
    rw [if_neg (not_lt.mpr h2), if_neg (not_lt.mpr h3)]

/-- A store state whose only block row sits at height 3000 (used to
trigger the depth cap). -/
def deepState : DbState := ⟨[⟨"b3000", 3000, ⟨"b3000", 3000, []⟩⟩], [], []⟩

theorem rollbackToHeight_service_guards_witness :
    IndexerService.rollbackToHeight (.str "x") emptyDb
      = (⟨false, some "Height must be a non-negative number"⟩, emptyDb)
    ∧ IndexerService.rollbackToHeight (.num 10) emptyDb
      = (⟨false, some "Cannot rollback to height 10, current height is 0"⟩, emptyDb)
    ∧ IndexerService.rollbackToHeight (.num 500) deepState
      = (⟨false, some "Cannot rollback more than 2000 blocks. Current: 3000, Target: 500"⟩,
         deepState)
    ∧ IndexerService.rollbackToHeight (.num 0) emptyDb
      = (⟨true, none⟩, Database.rollbackToHeight 0 emptyDb) := by
  refine ⟨?_, ?_, ?_, ?_⟩
  · exact ((rollbackToHeight_service_guards (.str "x") emptyDb).1
      (Or.inl (by decide)))
  · exact ((rollbackToHeight_service_guards (.num 10) emptyDb).2.1 rfl
      (by decide) (by decide)).trans (by decide)
  · have hcur : Database.getCurrentHeight deepState = 3000 := by decide
    have h2 : (JsValue.num 500).asNum ≤ Database.getCurrentHeight deepState := by
      rw [hcur]; simp only [JsValue.asNum]; norm_num
    have h3 : 2000 < Database.getCurrentHeight deepState - (JsValue.num 500).asNum := by
      rw [hcur]; simp only [JsValue.asNum]; norm_num
    have happ := (rollbackToHeight_service_guards (.num 500) deepState).2.2.1 rfl
      (by decide) h2 h3
    rw [happ, hcur]
    decide
  · refine ((rollbackToHeight_service_guards (.num 0) emptyDb).2.2.2 rfl
      (by decide) (by decide) ?_)
    have hcur : Database.getCurrentHeight emptyDb = 0 := by decide
    rw [hcur]; simp only [JsValue.asNum]; norm_num

/-! ## C7: the `processBlock` pipeline -/

/-- C7: `processBlock` runs the schema guard, then the block validator,
then `saveBlock`, in that order, short-circuiting on the first failure; it
always returns a result value (schema and validation failures surface as
that stage's error, a store error surfaces as a failure carrying the
underlying message), and no failing path changes the stored state. -/
theorem processBlock_pipeline (hash : String → String) (raw : JsValue) (s : DbState) :
    ((validateBlockSchema raw).isValid = false →
      IndexerService.processBlock hash raw s = (⟨false, (validateBlockSchema raw).error⟩, s))
    ∧ ((validateBlockSchema raw).isValid = true →
       (BlockValidator.validateBlock hash s (jsToBlock raw)).isValid = false →
      IndexerService.processBlock hash raw s
        = (⟨false, (BlockValidator.validateBlock hash s (jsToBlock raw)).error⟩, s))
    ∧ (∀ msg, (validateBlockSchema raw).isValid = true →
       (BlockValidator.validateBlock hash s (jsToBlock raw)).isValid = true →
       Database.saveBlock (jsToBlock raw) s = .error msg →
      IndexerService.processBlock hash raw s = (⟨false, some msg⟩, s))
    ∧ (∀ s', (validateBlockSchema raw).isValid = true →
       (BlockValidator.validateBlock hash s (jsToBlock raw)).isValid = true →
       Database.saveBlock (jsToBlock raw) s = .ok s' →
      IndexerService.processBlock hash raw s = (⟨true, none⟩, s'))
    ∧ ((IndexerService.processBlock hash raw s).1.success = false →
      (IndexerService.processBlock hash raw s).2 = s) := by
  refine ⟨?_, ?_, ?_, ?_, ?_⟩
  · intro h
    simp only [IndexerService.processBlock]
    rw [if_pos h]
  · intro h1 h2
    simp only [IndexerService.processBlock, IndexerService.applyBlock]
    rw [if_neg (by simp [h1]), if_pos h2]
  · intro msg h1 h2 h3
    simp only [IndexerService.processBlock, IndexerService.applyBlock]
    rw [if_neg (by simp [h1]), if_neg (by simp [h2]), h3]
  · intro s' h1 h2 h3
    simp only [IndexerService.processBlock, IndexerService.applyBlock]
    rw [if_neg (by simp [h1]), if_neg (by simp [h2]), h3]
  · simp only [IndexerService.processBlock, IndexerService.applyBlock]
    split_ifs with h1 h2
    · intro _; rfl
    · intro _; rfl
    · match hsave : Database.saveBlock (jsToBlock raw) s with
      | .error msg => intro _; rfl
      | .ok s' => intro hcontra; simp at hcontra

/-- A concrete stand-in for the SHA-256 hex digest used to run the
pipeline on closed inputs. -/
def idHash : String → String := fun s => s

/-- Raw block value with height 5 submitted to an empty store (schema-valid
but wrong height). -/
def wrongHeightRaw : JsValue :=
  .obj [("id", .str "x"), ("height", .num 5), ("transactions", .arr [])]

/-- Store state owning block id `6t1` at height 5, so that a valid block
at height 6 collides with the `blocks` primary key on insertion. -/
def dupIdState : DbState := ⟨[⟨"6t1", 5, ⟨"6t1", 5, []⟩⟩], [], []⟩

/-- Raw block value that passes schema and validation on `dupIdState` but
whose id collides with the stored row. -/
def dupIdRaw : JsValue :=
  .obj [("id", .str "6t1"), ("height", .num 6),
        ("transactions", .arr [.obj [("id", .str "t1"),
          ("inputs", .arr []), ("outputs", .arr [])]])]

/-- Raw empty-transaction genesis-shaped block accepted on an empty
store. -/
def okRaw : JsValue :=
  .obj [("id", .str "1t1"), ("height", .num 1),
        ("transactions", .arr [.obj [("id", .str "t1"),
          ("inputs", .arr []), ("outputs", .arr [])]])]

theorem processBlock_pipeline_witness :
    IndexerService.processBlock idHash .null emptyDb
      = (⟨false, some "Block must be an object"⟩, emptyDb)
    ∧ IndexerService.processBlock idHash wrongHeightRaw emptyDb
      = (⟨false, some "Invalid height. Expected 1, got 5"⟩, emptyDb)
    ∧ IndexerService.processBlock idHash dupIdRaw dupIdState
      = (⟨false, some "duplicate key value violates unique constraint on blocks"⟩, dupIdState)
    ∧ IndexerService.processBlock idHash okRaw emptyDb
      = (⟨true, none⟩,
         ⟨[⟨"1t1", 1, ⟨"1t1", 1, [⟨"t1", [], []⟩]⟩⟩],
          [⟨"t1", "1t1", 1, ⟨"t1", [], []⟩⟩], []⟩)
    ∧ (IndexerService.processBlock idHash .null emptyDb).2 = emptyDb := by
  refine ⟨?_, ?_, ?_, ?_, ?_⟩
  · exact ((processBlock_pipeline idHash .null emptyDb).1 (by decide)).trans (by decide)
  · exact ((processBlock_pipeline idHash wrongHeightRaw emptyDb).2.1 (by decide)
      (by with_unfolding_all decide)).trans (by with_unfolding_all decide)
  · exact ((processBlock_pipeline idHash dupIdRaw dupIdState).2.2.1
      "duplicate key value violates unique constraint on blocks" (by decide)
      (by with_unfolding_all decide) (by with_unfolding_all rfl))
  · exact ((processBlock_pipeline idHash okRaw emptyDb).2.2.2.1
      ⟨[⟨"1t1", 1, ⟨"1t1", 1, [⟨"t1", [], []⟩]⟩⟩],
       [⟨"t1", "1t1", 1, ⟨"t1", [], []⟩⟩], []⟩ (by decide)
      (by with_unfolding_all decide) (by with_unfolding_all rfl))
  · exact ((processBlock_pipeline idHash .null emptyDb).2.2.2.2 (by decide))

/-! ## C6: deterministic block id -/

/-- C6: the validator recomputes the block id as the hash (SHA-256 in the
implementation, abstracted here) of the height's decimal string followed
by the transaction ids in lexicographically sorted order — characterized
below by an arbitrary sorted permutation `l` of the ids — and accepts the
identity exactly when `block.id` matches; a mismatch is reported with both
the expected and the provided id. -/
theorem validateBlockId_recomputes_deterministic_id (hash : String → String) (b : Block)
    (l : List String) (hperm : l.Perm (b.transactions.map Transaction.id))
    (hsort : List.Sorted (· ≤ ·) l) :
    ((BlockValidator.validateBlockId hash b).isValid = true ↔
        b.id = hash (toString b.height ++ String.join l))
    ∧ (b.id ≠ hash (toString b.height ++ String.join l) →
        (BlockValidator.validateBlockId hash b).error
          = some (let expectedId := hash (toString b.height ++ String.join l)
                  let got := b.id
                  s!"Invalid block ID. Expected {expectedId}, got {got}")) := by
  have hsorteq : List.insertionSort (· ≤ ·) (b.transactions.map Transaction.id) = l :=
    List.eq_of_perm_of_sorted ((List.perm_insertionSort _ _).trans hperm.symm)
      (List.sorted_insertionSort _ _) hsort
  simp only [BlockValidator.validateBlockId, hsorteq]
  by_cases heq : b.id = hash (toString b.height ++ String.join l)
  · rw [if_neg (by simpa using heq)]
    simp [heq]
  · rw [if_pos heq]
    simp [heq]

/-- Two-transaction fixture whose id is the hash of height then the sorted
transaction ids. -/
def c6Block : Block := ⟨"2t1t2", 2, [⟨"t2", [], []⟩, ⟨"t1", [], []⟩]⟩

theorem validateBlockId_recomputes_deterministic_id_witness :
    ((BlockValidator.validateBlockId idHash c6Block).isValid = true ↔
        c6Block.id = idHash (toString c6Block.height ++ String.join ["t1", "t2"]))
    ∧ (c6Block.id ≠ idHash (toString c6Block.height ++ String.join ["t1", "t2"]) →
        (BlockValidator.validateBlockId idHash c6Block).error
          = some (let expectedId := idHash (toString c6Block.height ++ String.join ["t1", "t2"])
                  let got := c6Block.id
                  s!"Invalid block ID. Expected {expectedId}, got {got}")) :=
  validateBlockId_recomputes_deterministic_id idHash c6Block ["t1", "t2"]
    (by decide) (by with_unfolding_all decide)

/-! ## Validator structure lemmas -/

theorem computeInputSum_ok_found {s : DbState} : ∀ {inps : List Input} {q : Rat},
    BlockValidator.computeInputSum s inps = .ok q →
    ∀ inp ∈ inps, ∃ o, Database.getOutput s inp.txId inp.index = some o ∧ o.spent = false := by
  intro inps
  induction inps with
  | nil => intro q _ inp hmem; cases hmem
  | cons hd tl ih =>
    intro q h inp hmem
    simp only [BlockValidator.computeInputSum] at h
    cases hfind : Database.getOutput s hd.txId hd.index with
    | none => rw [hfind] at h; cases h
    | some o =>
      rw [hfind] at h
      dsimp only at h
      by_cases hsp : o.spent = true
      · rw [if_pos hsp] at h; cases h
      · rw [if_neg hsp] at h
        rcases List.mem_cons.mp hmem with rfl | hmem'
        · exact ⟨o, hfind, by simpa using hsp⟩
        · cases hrest : BlockValidator.computeInputSum s tl with
          | error e => rw [hrest] at h; cases h
          | ok acc => exact ih hrest inp hmem'

theorem computeInputSum_error_invalid {s : DbState} : ∀ {l : List Input} {e : VResult},
    BlockValidator.computeInputSum s l = .error e → e.isValid = false := by
  intro l
  induction l with
  | nil => intro e h; cases h
  | cons hd tl ih =>
    intro e h
    simp only [BlockValidator.computeInputSum] at h
    cases hfind : Database.getOutput s hd.txId hd.index with
    | none => rw [hfind] at h; injection h with h'; rw [← h']
    | some o =>
      rw [hfind] at h
      dsimp only at h
      by_cases hsp : o.spent = true
      · rw [if_pos hsp] at h; injection h with h'; rw [← h']
      · rw [if_neg hsp] at h
        cases hrest : BlockValidator.computeInputSum s tl with
        | error e' => rw [hrest] at h; injection h with h'; rw [← h']; exact ih hrest
        | ok acc => rw [hrest] at h; cases h

theorem computeOutputSum_error_invalid : ∀ {l : List Output} {e : VResult},
    BlockValidator.computeOutputSum l = .error e → e.isValid = false := by
  intro l
  induction l with
  | nil => intro e h; cases h
  | cons hd tl ih =>
    intro e h
    simp only [BlockValidator.computeOutputSum] at h
    by_cases hneg : hd.value < 0
    · rw [if_pos hneg] at h; injection h with h'; rw [← h']
    · rw [if_neg hneg] at h
      cases hrest : BlockValidator.computeOutputSum tl with
      | error e' => rw [hrest] at h; injection h with h'; rw [← h']; exact ih hrest
      | ok acc => rw [hrest] at h; cases h

theorem validateTransaction_ok_inputs {s : DbState} {tx : Transaction}
    (h : (BlockValidator.validateTransaction s tx).isValid = true) :
    ∀ inp ∈ tx.inputs, ∃ o, Database.getOutput s inp.txId inp.index = some o ∧ o.spent = false := by
  unfold BlockValidator.validateTransaction at h
  cases hin : BlockValidator.computeInputSum s tx.inputs with
  | error e =>
    rw [hin] at h
    rw [computeInputSum_error_invalid hin] at h
    cases h
  | ok q => exact computeInputSum_ok_found hin

theorem validateTxs_isValid_iff {s : DbState} : ∀ {l : List Transaction},
    (BlockValidator.validateTxs s l).isValid = true ↔
      ∀ tx ∈ l, (BlockValidator.validateTransaction s tx).isValid = true := by
  intro l
  induction l with
  | nil => simp [BlockValidator.validateTxs]
  | cons hd tl ih =>
    simp only [BlockValidator.validateTxs]
    by_cases hv : (BlockValidator.validateTransaction s hd).isValid = true
    · simp [hv, ih]
    · simp only [hv, if_false]
      simp only [Bool.not_eq_true] at hv
      simp [hv]

theorem validateBlock_isValid_iff (hash : String → String) (s : DbState) (b : Block) :
    (BlockValidator.validateBlock hash s b).isValid = true ↔
      ((BlockValidator.validateHeight s b.height).isValid = true
       ∧ (BlockValidator.validateBlockId hash b).isValid = true
       ∧ ∀ tx ∈ b.transactions, (BlockValidator.validateTransaction s tx).isValid = true) := by
  unfold BlockValidator.validateBlock
  by_cases h1 : (BlockValidator.validateHeight s b.height).isValid = false
  · rw [if_pos h1]
    simp [h1]
  · rw [if_neg h1]
    simp only [Bool.not_eq_false] at h1
    by_cases h2 : (BlockValidator.validateBlockId hash b).isValid = false
    · rw [if_pos h2]
      simp [h2]
    · rw [if_neg h2]
      simp only [Bool.not_eq_false] at h2
      simp [h1, h2, validateTxs_isValid_iff]

/-! ## C5: a spent output can never be spent again by a later block -/

/-- C5: once a stored output's `spent` flag is true, any block containing
a transaction that references it as an input fails validation (and the
transaction's own check fails; when the spent reference is the first
input examined, the error is exactly `Output already spent`), so no such
block is ever accepted or applied. -/
theorem spent_output_never_accepted_again (hash : String → String) (s : DbState) (b : Block)
    (tx : Transaction) (inp : Input) (o : StoredOutput)
    (htx : tx ∈ b.transactions) (hinp : inp ∈ tx.inputs)
    (hfound : Database.getOutput s inp.txId inp.index = some o)
    (hspent : o.spent = true) :
    (BlockValidator.validateBlock hash s b).isValid = false
    ∧ (BlockValidator.validateTransaction s tx).isValid = false
    ∧ (∀ rest, tx.inputs = inp :: rest →
        BlockValidator.validateTransaction s tx
          = ⟨false, some (let t := inp.txId
                          let i := inp.index
                          s!"Output already spent: {t}:{i}")⟩) := by
  have htxfail : (BlockValidator.validateTransaction s tx).isValid = false := by
    by_contra hco
    simp only [Bool.not_eq_false] at hco
    obtain ⟨o', hf', hs'⟩ := validateTransaction_ok_inputs hco inp hinp
    rw [hfound] at hf'
    injection hf' with he
    rw [← he, hspent] at hs'
    cases hs'
  refine ⟨?_, htxfail, ?_⟩
  · by_contra hco
    simp only [Bool.not_eq_false] at hco
    have h3 := ((validateBlock_isValid_iff hash s b).mp hco).2.2 tx htx
    rw [htxfail] at h3
    cases h3
  · intro rest hrest
    unfold BlockValidator.validateTransaction
    rw [hrest]
    simp only [BlockValidator.computeInputSum]
    rw [hfound]
    dsimp only
    rw [if_pos hspent]

/-- Store state holding the single already-spent output `(t0, 0)`. -/
def spentState : DbState :=
  ⟨[⟨"b1", 1, ⟨"b1", 1, []⟩⟩], [⟨"t1", "b1", 1, ⟨"t1", [], []⟩⟩],
   [⟨"t0", 0, "addrA", 0, true, some "t1", 1⟩]⟩

/-- A block whose only transaction tries to spend `(t0, 0)` again. -/
def respendBlock : Block := ⟨"respend", 2, [⟨"t2", [⟨"t0", 0⟩], []⟩]⟩

theorem spent_output_never_accepted_again_witness :
    (BlockValidator.validateBlock idHash spentState respendBlock).isValid = false
    ∧ (BlockValidator.validateTransaction spentState ⟨"t2", [⟨"t0", 0⟩], []⟩).isValid = false
    ∧ BlockValidator.validateTransaction spentState ⟨"t2", [⟨"t0", 0⟩], []⟩
        = ⟨false, some "Output already spent: t0:0"⟩ := by
  have h := spent_output_never_accepted_again idHash spentState respendBlock
    ⟨"t2", [⟨"t0", 0⟩], []⟩ ⟨"t0", 0⟩ ⟨"t0", 0, "addrA", 0, true⟩
    (by decide) (by decide) (by decide) rfl
  refine ⟨h.1, h.2.1, (h.2.2 [] rfl).trans (by decide)⟩

/-! ## C10: validation reads the pre-block store state only -/

/-- The state after directly persisting a height-1 block whose transaction
`t0` pays 5 to `addrA` (one stored unspent output). -/
def c10Base : DbState :=
  match Database.saveBlock (createTestBlock idHash 1 [⟨"t0", [], [⟨"addrA", 5⟩]⟩]) emptyDb with
  | .ok s => s
  | .error _ => emptyDb

/-- Height-2 block whose second transaction spends an output created by
the first transaction of the same block. -/
def c10IntraBlock : Block :=
  createTestBlock idHash 2 [⟨"tC", [], []⟩, ⟨"tD", [⟨"tC", 0⟩], []⟩]

/-- Height-2 block whose two transactions both spend the stored unspent
output `(t0, 0)`. -/
def c10DoubleSpend : Block :=
  createTestBlock idHash 2 [⟨"tA", [⟨"t0", 0⟩], [⟨"addrX", 5⟩]⟩, ⟨"tB", [⟨"t0", 0⟩], [⟨"addrY", 5⟩]⟩]

/-- C10: every transaction of a block is validated against the same
pre-block store state — acceptance decomposes into the height check, the
id check and the per-transaction check against `s`; concretely, a
transaction referencing an output created earlier in the same block is
rejected with `Referenced output not found`, while two transactions of
one block both spending the same stored unspent output both pass, so the
block is accepted. -/
theorem validator_resolves_inputs_against_preblock_state :
    (∀ (hash : String → String) (s : DbState) (b : Block),
      (BlockValidator.validateBlock hash s b).isValid = true ↔
        ((BlockValidator.validateHeight s b.height).isValid = true
         ∧ (BlockValidator.validateBlockId hash b).isValid = true
         ∧ ∀ tx ∈ b.transactions, (BlockValidator.validateTransaction s tx).isValid = true))
    ∧ BlockValidator.validateBlock idHash c10Base c10IntraBlock
        = ⟨false, some "Referenced output not found: tC:0"⟩
    ∧ BlockValidator.validateBlock idHash c10Base c10DoubleSpend = ⟨true, none⟩ := by
  refine ⟨validateBlock_isValid_iff, ?_, ?_⟩
  · with_unfolding_all decide
  · with_unfolding_all decide

/-! ## Shape of a committed block -/

/-- The heights `1, 2, …, n` as rationals. -/
def heightSeq (n : Nat) : List Rat := (List.range n).map (fun i : Nat => (i : Rat) + 1)

/-- The `transactions` rows inserted for a block. -/
def txRowsOf (blockId : String) (bh : Rat) (txs : List Transaction) : List TxRow :=
  txs.map (fun tx => ⟨tx.id, blockId, bh, tx⟩)

/-- The `outputs` rows inserted for one transaction, indexed from `i`. -/
def enumOutputs (txId : String) (bh : Rat) : Nat → List Output → List OutputRow
  | _, [] => []
  | i, out :: rest =>
    ⟨txId, i, out.address, out.value, false, none, bh⟩ :: enumOutputs txId bh (i + 1) rest

/-- All `outputs` rows inserted for a block. -/
def newOutputRows (bh : Rat) : List Transaction → List OutputRow
  | [] => []
  | tx :: rest => enumOutputs tx.id bh 0 tx.outputs ++ newOutputRows bh rest

/-- The pointwise effect on one stored row of marking all inputs of one
transaction. -/
def markRow (txId : String) (inps : List Input) (o : OutputRow) : OutputRow :=
  inps.foldl (fun o inp =>
    if o.txId = inp.txId ∧ (o.outputIndex : Rat) = inp.index then
      { o with spent := true, spentInTx := some txId }
    else o) o

/-- The pointwise effect on one stored row of committing all transactions
of a block. -/
def blockMark (txs : List Transaction) (o : OutputRow) : OutputRow :=
  txs.foldl (fun o tx => markRow tx.id tx.inputs o) o

theorem markInputs_eq_map (txId : String) : ∀ (inps : List Input) (rows : List OutputRow),
    Database.markInputs txId inps rows = rows.map (markRow txId inps) := by
  intro inps
  induction inps with
  | nil =>
    intro rows
    have hid : rows.map (markRow txId []) = rows.map id :=
      List.map_congr_left (fun o _ => rfl)
    simp [Database.markInputs, hid]
  | cons hd tl ih =>
    intro rows
    simp only [Database.markInputs, Database.markOne, ih, List.map_map]
    rfl

/-- `markRow` either leaves the row alone, or (when some input references
its key) turns it into the spent-by-`txId` version. -/
theorem markRow_cases (txId : String) : ∀ (inps : List Input) (o : OutputRow),
    markRow txId inps o = o
    ∨ ((∃ inp ∈ inps, o.txId = inp.txId ∧ (o.outputIndex : Rat) = inp.index)
       ∧ markRow txId inps o = { o with spent := true, spentInTx := some txId }) := by
  intro inps
  induction inps with
  | nil => intro o; left; rfl
  | cons hd tl ih =>
    intro o
    by_cases hm : o.txId = hd.txId ∧ (o.outputIndex : Rat) = hd.index
    · right
      have hstep : markRow txId (hd :: tl) o
          = markRow txId tl { o with spent := true, spentInTx := some txId } := by
        simp only [markRow, List.foldl_cons, if_pos hm]
      refine ⟨⟨hd, List.mem_cons_self hd tl, hm⟩, ?_⟩
      rw [hstep]
      rcases ih { o with spent := true, spentInTx := some txId } with h | ⟨_, h⟩
      · exact h
      · exact h
    · have hstep : markRow txId (hd :: tl) o = markRow txId tl o := by
        simp only [markRow, List.foldl_cons, if_neg hm]
      rw [hstep]
      rcases ih o with h | ⟨⟨inp, hmem, hkey⟩, h⟩
      · left; exact h
      · right; exact ⟨⟨inp, List.mem_cons_of_mem hd hmem, hkey⟩, h⟩

/-- `blockMark` either leaves the row alone, or turns it into the
spent-by-some-block-transaction version, and only when some input of the
block references its key. -/
theorem blockMark_cases : ∀ (txs : List Transaction) (o : OutputRow),
    blockMark txs o = o
    ∨ ((∃ tx ∈ txs, ∃ inp ∈ tx.inputs, o.txId = inp.txId ∧ (o.outputIndex : Rat) = inp.index)
       ∧ ∃ tx ∈ txs, blockMark txs o = { o with spent := true, spentInTx := some tx.id }) := by
  intro txs
  induction txs with
  | nil => intro o; left; rfl
  | cons hd tl ih =>
    intro o
    have hstep : blockMark (hd :: tl) o = blockMark tl (markRow hd.id hd.inputs o) := by
      simp only [blockMark, List.foldl_cons]
    rcases markRow_cases hd.id hd.inputs o with h1 | ⟨⟨inp, hinp, hkey⟩, h1⟩
    · rw [hstep, h1]
      rcases ih o with h | ⟨⟨tx, htx, w⟩, ⟨tx', htx', h⟩⟩
      · left; exact h
      · right
        exact ⟨⟨tx, List.mem_cons_of_mem hd htx, w⟩,
               ⟨tx', List.mem_cons_of_mem hd htx', h⟩⟩
    · right
      rw [hstep, h1]
      have hkey' : ({ o with spent := true, spentInTx := some hd.id } : OutputRow).txId = o.txId := rfl
      rcases ih { o with spent := true, spentInTx := some hd.id } with h | ⟨_, ⟨tx', htx', h⟩⟩
      · rw [h]
        exact ⟨⟨hd, List.mem_cons_self hd tl, inp, hinp, hkey⟩,
               ⟨hd, List.mem_cons_self hd tl, rfl⟩⟩
      · rw [h]
        exact ⟨⟨hd, List.mem_cons_self hd tl, inp, hinp, hkey⟩,
               ⟨tx', List.mem_cons_of_mem hd htx', rfl⟩⟩

/-- A row whose key no input of the block references is untouched. -/
theorem blockMark_id_of_no_ref {txs : List Transaction} {o : OutputRow}
    (h : ∀ tx ∈ txs, ∀ inp ∈ tx.inputs,
      ¬(o.txId = inp.txId ∧ (o.outputIndex : Rat) = inp.index)) :
    blockMark txs o = o := by
  rcases blockMark_cases txs o with h1 | ⟨⟨tx, htx, inp, hinp, hkey⟩, _⟩
  · exact h1
  · exact absurd hkey (h tx htx inp hinp)

/-- `blockMark` never changes the key, position, owner, value or height of
a row. -/
theorem blockMark_keeps (txs : List Transaction) (o : OutputRow) :
    (blockMark txs o).txId = o.txId ∧ (blockMark txs o).outputIndex = o.outputIndex
    ∧ (blockMark txs o).address = o.address ∧ (blockMark txs o).value = o.value
    ∧ (blockMark txs o).blockHeight = o.blockHeight := by
  rcases blockMark_cases txs o with h | ⟨_, ⟨tx, _, h⟩⟩ <;> rw [h] <;> exact ⟨rfl, rfl, rfl, rfl, rfl⟩

theorem insertOutputs_ok {txId : String} {bh : Rat} :
    ∀ {outs : List Output} {i : Nat} {rows res : List OutputRow},
    Database.insertOutputs txId bh i outs rows = .ok res →
    res = rows ++ enumOutputs txId bh i outs := by
  intro outs
  induction outs with
  | nil =>
    intro i rows res h
    injection h with h'
    simp [← h', enumOutputs]
  | cons hd tl ih =>
    intro i rows res h
    simp only [Database.insertOutputs] at h
    by_cases hdup : rows.any (fun o => o.txId = txId ∧ o.outputIndex = i) = true
    · rw [if_pos hdup] at h; cases h
    · rw [if_neg hdup] at h
      rw [ih h, enumOutputs]
      simp

theorem enumOutputs_mem {txId : String} {bh : Rat} :
    ∀ {outs : List Output} {i : Nat} {r : OutputRow}, r ∈ enumOutputs txId bh i outs →
    r.txId = txId ∧ r.blockHeight = bh ∧ r.spent = false ∧ r.spentInTx = none
    ∧ i ≤ r.outputIndex := by
  intro outs
  induction outs with
  | nil => intro i r h; cases h
  | cons hd tl ih =>
    intro i r h
    rcases List.mem_cons.mp h with rfl | h'
    · exact ⟨rfl, rfl, rfl, rfl, Nat.le_refl i⟩
    · obtain ⟨h1, h2, h3, h4, h5⟩ := ih h'
      exact ⟨h1, h2, h3, h4, Nat.le_of_succ_le h5⟩

theorem newOutputRows_mem {bh : Rat} : ∀ {txs : List Transaction} {r : OutputRow},
    r ∈ newOutputRows bh txs →
    ∃ tx ∈ txs, r.txId = tx.id ∧ r.blockHeight = bh ∧ r.spent = false ∧ r.spentInTx = none := by
  intro txs
  induction txs with
  | nil => intro r h; cases h
  | cons hd tl ih =>
    intro r h
    rcases List.mem_append.mp h with h' | h'
    · obtain ⟨h1, h2, h3, h4, _⟩ := enumOutputs_mem h'
      exact ⟨hd, List.mem_cons_self hd tl, h1, h2, h3, h4⟩
    · obtain ⟨tx, htx, hrest⟩ := ih h'
      exact ⟨tx, List.mem_cons_of_mem hd htx, hrest⟩

/-- Committing the transactions of a block keeps the `blocks` table,
appends exactly the transaction rows, never reuses an id already in the
table, and uses pairwise distinct ids. -/
theorem saveTxs_ok_txs (blockId : String) (bh : Rat) :
    ∀ {txs : List Transaction} {st s'' : DbState},
    Database.saveTxs blockId bh txs st = .ok s'' →
    s''.blocks = st.blocks
    ∧ s''.transactions = st.transactions ++ txRowsOf blockId bh txs
    ∧ (∀ tx ∈ txs, ∀ t ∈ st.transactions, t.id ≠ tx.id)
    ∧ (txs.map Transaction.id).Nodup := by
  intro txs
  induction txs with
  | nil =>
    intro st s'' h
    injection h with h'
    simp [← h', txRowsOf]
  | cons hd tl ih =>
    intro st s'' h
    simp only [Database.saveTxs, Database.saveTx] at h
    by_cases hdup : st.transactions.any (fun t => t.id = hd.id) = true
    · rw [if_pos hdup] at h; cases h
    · rw [if_neg hdup] at h
      cases hins : Database.insertOutputs hd.id bh 0 hd.outputs st.outputs with
      | error e => rw [hins] at h; cases h
      | ok outs =>
        rw [hins] at h
        obtain ⟨hb, ht, hfresh, hnodup⟩ := ih h
        have hfresh0 : ∀ t ∈ st.transactions, t.id ≠ hd.id := by
          intro t hmem hc
          exact hdup (List.any_eq_true.mpr ⟨t, hmem, by simp [hc]⟩)
        refine ⟨by simpa using hb, ?_, ?_, ?_⟩
        · rw [ht]
          simp [txRowsOf]
        · intro tx htx t hmem
          rcases List.mem_cons.mp htx with rfl | htx'
          · exact hfresh0 t hmem
          · exact hfresh tx htx' t (by simp [hmem])
        · refine List.nodup_cons.mpr ⟨?_, hnodup⟩
          intro hmem
          rcases List.mem_map.mp hmem with ⟨tx, htx, hid⟩
          have := hfresh tx htx ⟨hd.id, blockId, bh, hd⟩ (by simp)
          simp only at this
          exact this hid.symm

/-- Committing the transactions of a block rewrites the stored rows by the
pointwise block marking and appends exactly the new output rows — provided
no input of the block references an id of one of the block's own
transactions. -/
theorem saveTxs_ok_outputs (blockId : String) (bh : Rat) :
    ∀ {txs : List Transaction} {st s'' : DbState},
    Database.saveTxs blockId bh txs st = .ok s'' →
    (∀ tx ∈ txs, ∀ inp ∈ tx.inputs, ∀ tx' ∈ txs, inp.txId ≠ tx'.id) →
    s''.outputs = st.outputs.map (blockMark txs) ++ newOutputRows bh txs := by
  intro txs
  induction txs with
  | nil =>
    intro st s'' h _
    injection h with h'
    have hid : st.outputs.map (blockMark []) = st.outputs.map id :=
      List.map_congr_left (fun o _ => rfl)
    simp [← h', newOutputRows, hid]
  | cons hd tl ih =>
    intro st s'' h hdisj
    simp only [Database.saveTxs, Database.saveTx] at h
    by_cases hdup : st.transactions.any (fun t => t.id = hd.id) = true
    · rw [if_pos hdup] at h; cases h
    · rw [if_neg hdup] at h
      cases hins : Database.insertOutputs hd.id bh 0 hd.outputs st.outputs with
      | error e => rw [hins] at h; cases h
      | ok outs =>
        rw [hins] at h
        dsimp only at h
        have houts : outs = st.outputs ++ enumOutputs hd.id bh 0 hd.outputs :=
          insertOutputs_ok hins
        have hdisj' : ∀ tx ∈ tl, ∀ inp ∈ tx.inputs, ∀ tx' ∈ tl, inp.txId ≠ tx'.id := by
          intro tx htx inp hinp tx' htx'
          exact hdisj tx (List.mem_cons_of_mem hd htx) inp hinp tx' (List.mem_cons_of_mem hd htx')
        have hmid := ih h hdisj'
        dsimp only at hmid
        rw [hmid, markInputs_eq_map, houts, List.map_append, List.map_append, List.map_map]
        have henum1 : (enumOutputs hd.id bh 0 hd.outputs).map (markRow hd.id hd.inputs)
            = enumOutputs hd.id bh 0 hd.outputs := by
          rw [show (enumOutputs hd.id bh 0 hd.outputs).map (markRow hd.id hd.inputs)
              = (enumOutputs hd.id bh 0 hd.outputs).map id from
            List.map_congr_left ?_, List.map_id]
          intro r hr
          obtain ⟨hrt, _, _, _, _⟩ := enumOutputs_mem hr
          rcases markRow_cases hd.id hd.inputs r with hcase | ⟨⟨inp, hinp, hkey, _⟩, _⟩
          · exact hcase
          · exact absurd (hkey.symm.trans hrt)
              (hdisj hd (List.mem_cons_self hd tl) inp hinp hd (List.mem_cons_self hd tl))
        have henum2 : (enumOutputs hd.id bh 0 hd.outputs).map (blockMark tl)
            = enumOutputs hd.id bh 0 hd.outputs := by
          rw [show (enumOutputs hd.id bh 0 hd.outputs).map (blockMark tl)
              = (enumOutputs hd.id bh 0 hd.outputs).map id from
            List.map_congr_left ?_, List.map_id]
          intro r hr
          obtain ⟨hrt, _, _, _, _⟩ := enumOutputs_mem hr
          refine blockMark_id_of_no_ref ?_
          intro tx htx inp hinp hkey
          exact hdisj tx (List.mem_cons_of_mem hd htx) inp hinp hd
            (List.mem_cons_self hd tl) (hkey.1.symm.trans hrt)
        rw [henum1] at *
        have hcompose : ∀ o, blockMark tl (markRow hd.id hd.inputs o) = blockMark (hd :: tl) o := by
          intro o
          simp [blockMark, List.foldl_cons]
        rw [henum2, newOutputRows]
        have hmapc : st.outputs.map (fun o => blockMark tl (markRow hd.id hd.inputs o))
            = st.outputs.map (blockMark (hd :: tl)) :=
          List.map_congr_left (fun o _ => hcompose o)
        rw [show (blockMark tl ∘ markRow hd.id hd.inputs)
            = fun o => blockMark tl (markRow hd.id hd.inputs o) from rfl, hmapc]
        simp

/-- Shape of a successful `saveBlock` on a state where every input of the
block resolves to an already-stored transaction's output. -/
theorem saveBlock_ok_shape {b : Block} {s s' : DbState}
    (hsave : Database.saveBlock b s = .ok s')
    (hin : ∀ tx ∈ b.transactions, ∀ inp ∈ tx.inputs, ∃ t ∈ s.transactions, inp.txId = t.id) :
    s'.blocks = s.blocks ++ [⟨b.id, b.height, b⟩]
    ∧ s'.transactions = s.transactions ++ txRowsOf b.id b.height b.transactions
    ∧ s'.outputs = s.outputs.map (blockMark b.transactions)
        ++ newOutputRows b.height b.transactions
    ∧ (∀ tx ∈ b.transactions, ∀ t ∈ s.transactions, t.id ≠ tx.id)
    ∧ (b.transactions.map Transaction.id).Nodup := by
  unfold Database.saveBlock at hsave
  by_cases hdup : s.blocks.any (fun r => r.id = b.id ∨ r.height = b.height) = true
  · rw [if_pos hdup] at hsave; cases hsave
  · rw [if_neg hdup] at hsave
    obtain ⟨hb, ht, hfresh, hnodup⟩ := saveTxs_ok_txs b.id b.height hsave
    have hdisj : ∀ tx ∈ b.transactions, ∀ inp ∈ tx.inputs,
        ∀ tx' ∈ b.transactions, inp.txId ≠ tx'.id := by
      intro tx htx inp hinp tx' htx'
      obtain ⟨t, htmem, hid⟩ := hin tx htx inp hinp
      rw [hid]
      exact fun hc => hfresh tx' htx' t htmem hc
    have houts := saveTxs_ok_outputs b.id b.height hsave hdisj
    exact ⟨hb, ht, houts, hfresh, hnodup⟩

/-- With unique `(tx_id, output_index)` keys, the row lookup returns
exactly the member row with the queried key. -/
theorem find_row_unique : ∀ {rows : List OutputRow} {o : OutputRow} {txId : String} {idx : Rat},
    (rows.map (fun r => (r.txId, r.outputIndex))).Nodup →
    o ∈ rows → o.txId = txId → (o.outputIndex : Rat) = idx →
    rows.find? (fun r => r.txId = txId ∧ (r.outputIndex : Rat) = idx) = some o := by
  intro rows
  induction rows with
  | nil => intro o txId idx _ hmem; cases hmem
  | cons hd tl ih =>
    intro o txId idx hnd hmem h1 h2
    by_cases hp : hd.txId = txId ∧ (hd.outputIndex : Rat) = idx
    · rcases List.mem_cons.mp hmem with rfl | hmem'
      · rw [List.find?_cons_of_pos _ (by simpa using hp)]
      · exfalso
        have hkey : hd.txId = o.txId := hp.1.trans h1.symm
        have hidx : hd.outputIndex = o.outputIndex :=
          Nat.cast_injective (R := Rat) (hp.2.trans h2.symm)
        rcases List.nodup_cons.mp hnd with ⟨hnotin, _⟩
        exact hnotin (List.mem_map.mpr ⟨o, hmem', by simp [← hkey, ← hidx]⟩)
    · rcases List.mem_cons.mp hmem with rfl | hmem'
      · exact absurd ⟨h1, h2⟩ hp
      · rw [List.find?_cons_of_neg _ (by simpa using hp)]
        exact ih (List.nodup_cons.mp hnd).2 hmem' h1 h2

theorem validateHeight_ok {s : DbState} {h : Rat}
    (hv : (BlockValidator.validateHeight s h).isValid = true) :
    h = Database.getCurrentHeight s + 1 := by
  unfold BlockValidator.validateHeight at hv
  by_cases heq : h = Database.getCurrentHeight s + 1
  · exact heq
  · rw [if_pos heq] at hv; cases hv

/-! ## The reachable-state invariant -/

theorem heightSeq_succ (n : Nat) : heightSeq (n + 1) = heightSeq n ++ [(n : Rat) + 1] := by
  simp [heightSeq, List.range_succ]

theorem heightSeq_le {n : Nat} {x : Rat} (hx : x ∈ heightSeq n) : x ≤ (n : Rat) := by
  unfold heightSeq at hx
  rcases List.mem_map.mp hx with ⟨i, hi, rfl⟩
  rw [List.mem_range] at hi
  have h1 : (i + 1 : Nat) ≤ n := hi
  calc ((i : Rat) + 1) = ((i + 1 : Nat) : Rat) := by push_cast; ring
    _ ≤ (n : Rat) := by exact_mod_cast h1

theorem maxHeight_append_last {l : List BlockRow} {r : BlockRow}
    (h : ∀ x ∈ l, x.height ≤ r.height) :
    Database.maxHeight (l ++ [r]) = some r.height := by
  induction l with
  | nil => rfl
  | cons hd tl ih =>
    have hh : hd.height ≤ r.height := h hd (List.mem_cons_self hd tl)
    have ih' := ih (fun x hx => h x (List.mem_cons_of_mem hd hx))
    show Database.maxHeight (hd :: (tl ++ [r])) = some r.height
    unfold Database.maxHeight
    rw [ih']
    simp [max_eq_right hh]

/-- Invariant of every state reachable by validated block application:
block heights are exactly `1..n`, `currentHeight` equals the block count,
every transaction row carries one of those heights, every output row
belongs to a stored transaction, unspent rows carry no spender, spent
rows reference a stored transaction, and output keys are unique (the
primary-key constraint). -/
structure Inv (s : DbState) : Prop where
  blocksShape : s.blocks.map BlockRow.height = heightSeq s.blocks.length
  curHeight : Database.getCurrentHeight s = (s.blocks.length : Rat)
  txHeight : ∀ t ∈ s.transactions, ∃ n : Nat, n < s.blocks.length ∧ t.blockHeight = (n : Rat) + 1
  outParent : ∀ o ∈ s.outputs, ∃ t ∈ s.transactions, t.id = o.txId ∧ t.blockHeight = o.blockHeight
  unspentClean : ∀ o ∈ s.outputs, o.spent = false → o.spentInTx = none
  spentRef : ∀ o ∈ s.outputs, o.spent = true → ∃ t ∈ s.transactions, o.spentInTx = some t.id
  keysNodup : (s.outputs.map (fun o => (o.txId, o.outputIndex))).Nodup

theorem inv_emptyDb : Inv emptyDb :=
  ⟨by simp [emptyDb, heightSeq],
   by simp [emptyDb, Database.getCurrentHeight, Database.maxHeight],
   by simp [emptyDb], by simp [emptyDb], by simp [emptyDb], by simp [emptyDb],
   by simp [emptyDb]⟩

theorem inv_block_height_le {s : DbState} (hInv : Inv s) :
    ∀ x ∈ s.blocks, x.height ≤ (s.blocks.length : Rat) := by
  intro x hx
  have hmem : x.height ∈ s.blocks.map BlockRow.height := List.mem_map_of_mem _ hx
  rw [hInv.blocksShape] at hmem
  exact heightSeq_le hmem

theorem inv_tx_height_le {s : DbState} (hInv : Inv s) :
    ∀ t ∈ s.transactions, t.blockHeight ≤ (s.blocks.length : Rat) := by
  intro t ht
  obtain ⟨n, hn, heq⟩ := hInv.txHeight t ht
  rw [heq]
  have h1 : (n + 1 : Nat) ≤ s.blocks.length := hn
  calc ((n : Rat) + 1) = ((n + 1 : Nat) : Rat) := by push_cast; ring
    _ ≤ (s.blocks.length : Rat) := by exact_mod_cast h1

theorem inv_out_height_le {s : DbState} (hInv : Inv s) :
    ∀ o ∈ s.outputs, o.blockHeight ≤ (s.blocks.length : Rat) := by
  intro o ho
  obtain ⟨t, ht, _, hbh⟩ := hInv.outParent o ho
  rw [← hbh]
  exact inv_tx_height_le hInv t ht

/-- Every input of a validated block resolves to a stored unspent row with
the referenced key. -/
theorem validateBlock_ok_resolves {hash : String → String} {s : DbState} {b : Block}
    (hval : (BlockValidator.validateBlock hash s b).isValid = true) :
    ∀ tx ∈ b.transactions, ∀ inp ∈ tx.inputs,
      ∃ row ∈ s.outputs, row.txId = inp.txId ∧ (row.outputIndex : Rat) = inp.index
        ∧ row.spent = false := by
  intro tx htx inp hinp
  have htxok := ((validateBlock_isValid_iff hash s b).mp hval).2.2 tx htx
  obtain ⟨o, hfound, hsp⟩ := validateTransaction_ok_inputs htxok inp hinp
  unfold Database.getOutput at hfound
  cases hrow : Database.findOutputRow s inp.txId inp.index with
  | none => rw [hrow] at hfound; cases hfound
  | some row =>
    rw [hrow] at hfound
    injection hfound with ho
    unfold Database.findOutputRow at hrow
    have hmem := List.mem_of_find?_eq_some hrow
    have hpred := List.find?_some hrow
    simp only [decide_eq_true_eq] at hpred
    refine ⟨row, hmem, hpred.1, hpred.2, ?_⟩
    rw [← ho] at hsp
    simpa using hsp

/-- Every input of a validated block references an already-stored
transaction id. -/
theorem validateBlock_ok_hin {hash : String → String} {s : DbState} {b : Block}
    (hInv : Inv s) (hval : (BlockValidator.validateBlock hash s b).isValid = true) :
    ∀ tx ∈ b.transactions, ∀ inp ∈ tx.inputs, ∃ t ∈ s.transactions, inp.txId = t.id := by
  intro tx htx inp hinp
  obtain ⟨row, hmem, h1, _, _⟩ := validateBlock_ok_resolves hval tx htx inp hinp
  obtain ⟨t, ht, hid, _⟩ := hInv.outParent row hmem
  exact ⟨t, ht, h1.symm.trans hid.symm⟩

theorem enumOutputs_keys_nodup {txId : String} {bh : Rat} : ∀ {outs : List Output} {i : Nat},
    ((enumOutputs txId bh i outs).map (fun o => (o.txId, o.outputIndex))).Nodup := by
  intro outs
  induction outs with
  | nil => intro i; simp [enumOutputs]
  | cons hd tl ih =>
    intro i
    simp only [enumOutputs, List.map_cons]
    refine List.nodup_cons.mpr ⟨?_, ih⟩
    intro hmem
    rcases List.mem_map.mp hmem with ⟨r, hr, hkey⟩
    obtain ⟨_, _, _, _, hge⟩ := enumOutputs_mem hr
    have hidx : r.outputIndex = i := congrArg Prod.snd hkey
    omega

theorem newOutputRows_keys_nodup {bh : Rat} : ∀ {txs : List Transaction},
    (txs.map Transaction.id).Nodup →
    ((newOutputRows bh txs).map (fun o => (o.txId, o.outputIndex))).Nodup := by
  intro txs
  induction txs with
  | nil => intro _; simp [newOutputRows]
  | cons hd tl ih =>
    intro hnd
    rcases List.nodup_cons.mp hnd with ⟨hnotin, hnd'⟩
    simp only [newOutputRows, List.map_append]
    refine List.Nodup.append enumOutputs_keys_nodup (ih hnd') ?_
    intro key hk1 hk2
    rcases List.mem_map.mp hk1 with ⟨r1, hr1, hkey1⟩
    rcases List.mem_map.mp hk2 with ⟨r2, hr2, hkey2⟩
    obtain ⟨ht1, _, _, _, _⟩ := enumOutputs_mem hr1
    obtain ⟨tx2, htx2, ht2, _⟩ := newOutputRows_mem hr2
    have heq : r1.txId = r2.txId := congrArg Prod.fst (hkey1.trans hkey2.symm)
    exact hnotin (List.mem_map.mpr ⟨tx2, htx2, ht2.symm.trans (heq.symm.trans ht1)⟩)

/-- A validated, successfully saved block preserves the invariant and
advances the chain by exactly one block of height `currentHeight + 1`. -/
theorem save_ok_inv {hash : String → String} {b : Block} {s s' : DbState}
    (hInv : Inv s)
    (hval : (BlockValidator.validateBlock hash s b).isValid = true)
    (hsave : Database.saveBlock b s = .ok s') :
    Inv s' ∧ s'.blocks.length = s.blocks.length + 1
    ∧ b.height = (s.blocks.length : Rat) + 1 := by
  have hb_height : b.height = (s.blocks.length : Rat) + 1 := by
    have h1 := validateHeight_ok ((validateBlock_isValid_iff hash s b).mp hval).1
    rw [hInv.curHeight] at h1
    exact h1
  obtain ⟨hb, ht, ho, hfresh, hnodup⟩ :=
    saveBlock_ok_shape hsave (validateBlock_ok_hin hInv hval)
  have hlen : s'.blocks.length = s.blocks.length + 1 := by rw [hb]; simp
  have hshape : s'.blocks.map BlockRow.height = heightSeq s'.blocks.length := by
    rw [hb]
    have hlen2 : (s.blocks ++ [(⟨b.id, b.height, b⟩ : BlockRow)]).length
        = s.blocks.length + 1 := by simp
    rw [hlen2, heightSeq_succ, List.map_append, hInv.blocksShape]
    simp [hb_height]
  have hcur' : Database.getCurrentHeight s' = (s'.blocks.length : Rat) := by
    unfold Database.getCurrentHeight
    rw [hb, maxHeight_append_last (r := ⟨b.id, b.height, b⟩)
      (fun x hx => by
        have hle := inv_block_height_le hInv x hx
        show x.height ≤ b.height
        rw [hb_height]; linarith)]
    have hpos : (⟨b.id, b.height, b⟩ : BlockRow).height ≠ 0 := by
      show b.height ≠ 0
      rw [hb_height]
      positivity
    dsimp only
    rw [if_neg hpos]
    show b.height = ((s.blocks ++ [(⟨b.id, b.height, b⟩ : BlockRow)]).length : Rat)
    rw [hb_height]
    simp only [List.length_append, List.length_cons, List.length_nil]
    push_cast
    ring
  refine ⟨⟨hshape, hcur', ?_, ?_, ?_, ?_, ?_⟩, hlen, hb_height⟩
  · intro t htmem
    rw [ht] at htmem
    rcases List.mem_append.mp htmem with hold | hnew
    · obtain ⟨n, hn, he⟩ := hInv.txHeight t hold
      exact ⟨n, by omega, he⟩
    · rcases List.mem_map.mp hnew with ⟨tx, _, rfl⟩
      refine ⟨s.blocks.length, by omega, ?_⟩
      show b.height = _
      exact hb_height
  · intro o ho'
    rw [ho] at ho'
    rcases List.mem_append.mp ho' with hold | hnew
    · rcases List.mem_map.mp hold with ⟨o0, ho0, rfl⟩
      obtain ⟨t, htm, hid, hbh⟩ := hInv.outParent o0 ho0
      obtain ⟨k1, _, _, _, k5⟩ := blockMark_keeps b.transactions o0
      refine ⟨t, ?_, ?_, ?_⟩
      · rw [ht]; exact List.mem_append_left _ htm
      · rw [k1]; exact hid
      · rw [k5]; exact hbh
    · obtain ⟨tx, htx, h1, h2, _, _⟩ := newOutputRows_mem hnew
      refine ⟨⟨tx.id, b.id, b.height, tx⟩, ?_, h1.symm, h2.symm⟩
      rw [ht]
      exact List.mem_append_right _ (List.mem_map.mpr ⟨tx, htx, rfl⟩)
  · intro o ho' hsp
    rw [ho] at ho'
    rcases List.mem_append.mp ho' with hold | hnew
    · rcases List.mem_map.mp hold with ⟨o0, ho0, rfl⟩
      rcases blockMark_cases b.transactions o0 with hcase | ⟨_, ⟨tx, _, hcase⟩⟩
      · rw [hcase] at hsp ⊢
        exact hInv.unspentClean o0 ho0 hsp
      · rw [hcase] at hsp
        cases hsp
    · obtain ⟨_, _, _, _, hnone⟩ := newOutputRows_mem hnew
      exact hnone.2
  · intro o ho' hsp
    rw [ho] at ho'
    rcases List.mem_append.mp ho' with hold | hnew
    · rcases List.mem_map.mp hold with ⟨o0, ho0, rfl⟩
      rcases blockMark_cases b.transactions o0 with hcase | ⟨_, ⟨tx, htx, hcase⟩⟩
      · rw [hcase] at hsp ⊢
        obtain ⟨t, htm, hs⟩ := hInv.spentRef o0 ho0 hsp
        exact ⟨t, by rw [ht]; exact List.mem_append_left _ htm, hs⟩
      · rw [hcase]
        refine ⟨⟨tx.id, b.id, b.height, tx⟩, ?_, rfl⟩
        rw [ht]
        exact List.mem_append_right _ (List.mem_map.mpr ⟨tx, htx, rfl⟩)
    · obtain ⟨_, _, _, _, hfalse, _⟩ := newOutputRows_mem hnew
      rw [hfalse] at hsp
      cases hsp
  · rw [ho, List.map_append]
    refine List.Nodup.append ?_ (newOutputRows_keys_nodup hnodup) ?_
    · rw [List.map_map]
      have hcongr : s.outputs.map
            ((fun o => (o.txId, o.outputIndex)) ∘ blockMark b.transactions)
          = s.outputs.map (fun o => (o.txId, o.outputIndex)) := by
        refine List.map_congr_left ?_
        intro o _
        obtain ⟨k1, k2, _, _, _⟩ := blockMark_keeps b.transactions o
        simp [Function.comp, k1, k2]
      rw [hcongr]
      exact hInv.keysNodup
    · intro key hk1 hk2
      rw [List.map_map] at hk1
      rcases List.mem_map.mp hk1 with ⟨o0, ho0, hkey1⟩
      rcases List.mem_map.mp hk2 with ⟨r2, hr2, hkey2⟩
      obtain ⟨tx2, htx2, ht2, _⟩ := newOutputRows_mem hr2
      obtain ⟨t, htm, hid, _⟩ := hInv.outParent o0 ho0
      obtain ⟨k1, _, _, _, _⟩ := blockMark_keeps b.transactions o0
      have heq1 : (blockMark b.transactions o0).txId = r2.txId :=
        congrArg Prod.fst (hkey1.trans hkey2.symm)
      have : t.id = tx2.id := by
        rw [hid, ← k1, heq1, ht2]
      exact hfresh tx2 htx2 t htm this

/-- Rolling back to a height at or above everything stored is a no-op. -/
theorem rollbackToHeight_fix {k : Rat} {s : DbState}
    (hb : ∀ x ∈ s.blocks, x.height ≤ k)
    (ht : ∀ t ∈ s.transactions, t.blockHeight ≤ k)
    (ho : ∀ o ∈ s.outputs, o.blockHeight ≤ k) :
    Database.rollbackToHeight k s = s := by
  unfold Database.rollbackToHeight
  have hA : s.blocks.filter (fun x => ¬k < x.height) = s.blocks :=
    List.filter_eq_self.mpr (fun x hx => by simpa using not_lt.mpr (hb x hx))
  have hB : s.transactions.filter (fun t => ¬k < t.blockHeight) = s.transactions :=
    List.filter_eq_self.mpr (fun t htm => by simpa using not_lt.mpr (ht t htm))
  have hC0 : s.outputs.map (fun o =>
      if Database.shouldUnmark s.transactions k o then
        { o with spent := false, spentInTx := none } else o) = s.outputs.map id := by
    refine List.map_congr_left ?_
    intro o _
    rw [if_neg ?_, id]
    rintro ⟨_, t, htm, _, hlt⟩
    exact absurd hlt (not_lt.mpr (ht t htm))
  have hC : (s.outputs.map (fun o =>
      if Database.shouldUnmark s.transactions k o then
        { o with spent := false, spentInTx := none } else o)).filter
        (fun o => ¬k < o.blockHeight) = s.outputs := by
    rw [hC0, List.map_id]
    exact List.filter_eq_self.mpr (fun o hmem => by simpa using not_lt.mpr (ho o hmem))
  dsimp only
  rw [hA, hB, hC]

/-- Applying one more validated block does not change what a rollback to
any not-higher height produces: the block's rows are deleted and its
spent-marks are unwound. -/
theorem rollbackToHeight_absorb {hash : String → String} {k : Rat} {b : Block} {s s' : DbState}
    (hInv : Inv s) (hk : k ≤ Database.getCurrentHeight s)
    (hval : (BlockValidator.validateBlock hash s b).isValid = true)
    (hsave : Database.saveBlock b s = .ok s') :
    Database.rollbackToHeight k s' = Database.rollbackToHeight k s := by
  obtain ⟨hb, ht, ho, hfresh, hnodup⟩ :=
    saveBlock_ok_shape hsave (validateBlock_ok_hin hInv hval)
  have hb_height : b.height = (s.blocks.length : Rat) + 1 := (save_ok_inv hInv hval hsave).2.2
  have hkb : k < b.height := by
    rw [hInv.curHeight] at hk
    rw [hb_height]
    linarith
  have hpoint : ∀ o ∈ s.outputs,
      (if Database.shouldUnmark s'.transactions k (blockMark b.transactions o) then
        { blockMark b.transactions o with spent := false, spentInTx := none }
       else blockMark b.transactions o)
      = (if Database.shouldUnmark s.transactions k o then
          { o with spent := false, spentInTx := none } else o) := by
    intro o ho0
    rcases blockMark_cases b.transactions o with hcase | ⟨⟨tx0, htx0, inp, hinp, hkey⟩, tx, htx, hcase⟩
    · rw [hcase]
      by_cases hsp : o.spent = true
      · obtain ⟨t0, ht0, hs0⟩ := hInv.spentRef o ho0 hsp
        by_cases hsu : Database.shouldUnmark s.transactions k o
        · have hsu' : Database.shouldUnmark s'.transactions k o := by
            obtain ⟨_, t, htm, hsi, hlt⟩ := hsu
            exact ⟨hsp, t, by rw [ht]; exact List.mem_append_left _ htm, hsi, hlt⟩
          rw [if_pos hsu, if_pos hsu']
        · rw [if_neg hsu, if_neg ?_]
          rintro ⟨_, t, htm, hsi, hlt⟩
          rw [ht] at htm
          rcases List.mem_append.mp htm with hold | hnew
          · exact hsu ⟨hsp, t, hold, hsi, hlt⟩
          · rcases List.mem_map.mp hnew with ⟨tx', htx', rfl⟩
            have hids : t0.id = tx'.id := by
              have h0 := hs0.symm.trans hsi
              injection h0
            exact hfresh tx' htx' t0 ht0 hids
      · have hne : ∀ txs, ¬Database.shouldUnmark txs k o := by
          rintro txs ⟨hsp', _⟩
          exact hsp hsp'
        rw [if_neg (hne _), if_neg (hne _)]
    · obtain ⟨row, hrmem, hr1, hr2, hr3⟩ :=
        validateBlock_ok_resolves hval tx0 htx0 inp hinp
      have hrow_eq : row = o := by
        have h1 : row.txId = o.txId := hr1.trans hkey.1.symm
        have h2 : row.outputIndex = o.outputIndex :=
          Nat.cast_injective (R := Rat) (hr2.trans hkey.2.symm)
        exact List.inj_on_of_nodup_map hInv.keysNodup hrmem ho0 (by rw [h1, h2])
      have hosp : o.spent = false := by rw [← hrow_eq]; exact hr3
      have hono : o.spentInTx = none := hInv.unspentClean o ho0 hosp
      rw [hcase]
      rw [if_pos ⟨rfl, ⟨tx.id, b.id, b.height, tx⟩,
        by rw [ht]; exact List.mem_append_right _ (List.mem_map.mpr ⟨tx, htx, rfl⟩),
        rfl, hkb⟩]
      rw [if_neg ?_]
      · cases o
        simp only at hosp hono
        simp [hosp, hono]
      · rintro ⟨hsp', _⟩
        rw [hosp] at hsp'
        cases hsp'
  unfold Database.rollbackToHeight
  have hblocks : s'.blocks.filter (fun x => ¬k < x.height)
      = s.blocks.filter (fun x => ¬k < x.height) := by
    rw [hb, List.filter_append]
    have hx : ([(⟨b.id, b.height, b⟩ : BlockRow)].filter (fun x => ¬k < x.height)) = [] := by
      simp [hkb]
    rw [hx, List.append_nil]
  have htxs : s'.transactions.filter (fun t => ¬k < t.blockHeight)
      = s.transactions.filter (fun t => ¬k < t.blockHeight) := by
    rw [ht, List.filter_append]
    have hx : ((txRowsOf b.id b.height b.transactions).filter
        (fun t => ¬k < t.blockHeight)) = [] := by
      rw [List.filter_eq_nil_iff]
      intro t htm
      rcases List.mem_map.mp htm with ⟨tx, _, rfl⟩
      simp [hkb]
    rw [hx, List.append_nil]
  have houts : ((s'.outputs.map (fun o =>
        if Database.shouldUnmark s'.transactions k o then
          { o with spent := false, spentInTx := none } else o)).filter
        (fun o => ¬k < o.blockHeight))
      = ((s.outputs.map (fun o =>
          if Database.shouldUnmark s.transactions k o then
            { o with spent := false, spentInTx := none } else o)).filter
          (fun o => ¬k < o.blockHeight)) := by
    rw [ho, List.map_append, List.map_map, List.filter_append]
    have hnew0 : ((newOutputRows b.height b.transactions).map (fun o =>
        if Database.shouldUnmark s'.transactions k o then
          { o with spent := false, spentInTx := none } else o)).filter
        (fun o => ¬k < o.blockHeight) = [] := by
      rw [List.filter_eq_nil_iff]
      intro r hr
      rcases List.mem_map.mp hr with ⟨r0, hr0, rfl⟩
      obtain ⟨tx, _, _, hbh0, _, _⟩ := newOutputRows_mem hr0
      have hb' : (if Database.shouldUnmark s'.transactions k r0 then
          { r0 with spent := false, spentInTx := none } else r0).blockHeight
          = r0.blockHeight := by
        split <;> rfl
      have hbfull : ((if Database.shouldUnmark s'.transactions k r0 then
          { r0 with spent := false, spentInTx := none } else r0) : OutputRow).blockHeight
          = b.height := by
        rw [hb', hbh0]
      simp [hbfull, hkb]
    rw [hnew0, List.append_nil]
    have hmapc : s.outputs.map ((fun o =>
        if Database.shouldUnmark s'.transactions k o then
          { o with spent := false, spentInTx := none } else o) ∘ blockMark b.transactions)
        = s.outputs.map (fun o =>
          if Database.shouldUnmark s.transactions k o then
            { o with spent := false, spentInTx := none } else o) :=
      List.map_congr_left (fun o hmem => hpoint o hmem)
    rw [hmapc]
  dsimp only
  rw [hblocks, htxs, houts]

/-! ## Chains of submissions -/

theorem applyBlock_ok {hash : String → String} {b : Block} {s : DbState}
    {r : ProcessResult} {s' : DbState}
    (h : IndexerService.applyBlock hash b s = (r, s')) (hr : r.success = true) :
    (BlockValidator.validateBlock hash s b).isValid = true
    ∧ Database.saveBlock b s = .ok s' := by
  unfold IndexerService.applyBlock at h
  by_cases hv : (BlockValidator.validateBlock hash s b).isValid = false
  · rw [if_pos hv] at h
    injection h with h1 h2
    rw [← h1] at hr
    cases hr
  · rw [if_neg hv] at h
    simp only [Bool.not_eq_false] at hv
    cases hsave : Database.saveBlock b s with
    | error msg =>
      rw [hsave] at h
      injection h with h1 h2
      rw [← h1] at hr
      cases hr
    | ok s1 =>
      rw [hsave] at h
      injection h with h1 h2
      rw [h2]
      exact ⟨hv, rfl⟩

theorem applyBlock_fail_state {hash : String → String} {b : Block} {s : DbState}
    (h : (IndexerService.applyBlock hash b s).1.success = false) :
    (IndexerService.applyBlock hash b s).2 = s := by
  unfold IndexerService.applyBlock at *
  by_cases hv : (BlockValidator.validateBlock hash s b).isValid = false
  · rw [if_pos hv]
  · rw [if_neg hv] at h ⊢
    cases hsave : Database.saveBlock b s with
    | error msg => rfl
    | ok s1 =>
      rw [hsave] at h
      cases h

theorem processBlock_ok {hash : String → String} {raw : JsValue} {s : DbState}
    {r : ProcessResult} {s' : DbState}
    (h : IndexerService.processBlock hash raw s = (r, s')) (hr : r.success = true) :
    (validateBlockSchema raw).isValid = true
    ∧ (BlockValidator.validateBlock hash s (jsToBlock raw)).isValid = true
    ∧ Database.saveBlock (jsToBlock raw) s = .ok s' := by
  unfold IndexerService.processBlock at h
  by_cases hs : (validateBlockSchema raw).isValid = false
  · rw [if_pos hs] at h
    injection h with h1 h2
    rw [← h1] at hr
    cases hr
  · rw [if_neg hs] at h
    simp only [Bool.not_eq_false] at hs
    obtain ⟨hv, hsave⟩ := applyBlock_ok h hr
    exact ⟨hs, hv, hsave⟩

theorem processBlock_fail_state {hash : String → String} {raw : JsValue} {s : DbState}
    (h : (IndexerService.processBlock hash raw s).1.success = false) :
    (IndexerService.processBlock hash raw s).2 = s := by
  unfold IndexerService.processBlock at *
  by_cases hs : (validateBlockSchema raw).isValid = false
  · rw [if_pos hs]
  · rw [if_neg hs] at h ⊢
    exact applyBlock_fail_state h

theorem applyChain_inv {hash : String → String} : ∀ {bs : List Block} {s s' : DbState},
    Inv s → applyChain hash bs s = some s' →
    Inv s' ∧ s'.blocks.length = s.blocks.length + bs.length := by
  intro bs
  induction bs with
  | nil =>
    intro s s' hInv h
    injection h with h'
    rw [← h']
    exact ⟨hInv, by simp⟩
  | cons b rest ih =>
    intro s s' hInv h
    simp only [applyChain] at h
    cases happ : IndexerService.applyBlock hash b s with
    | mk r s1 =>
      rw [happ] at h
      dsimp only at h
      by_cases hr : r.success = true
      · rw [if_pos hr] at h
        obtain ⟨hval, hsave⟩ := applyBlock_ok happ hr
        obtain ⟨hInv1, hlen1, _⟩ := save_ok_inv hInv hval hsave
        obtain ⟨hInv', hlen'⟩ := ih hInv1 h
        refine ⟨hInv', ?_⟩
        rw [hlen', hlen1]
        simp only [List.length_cons]
        omega
      · rw [if_neg hr] at h
        cases h

theorem applyChain_append {hash : String → String} : ∀ {xs ys : List Block} {s s'' : DbState},
    applyChain hash (xs ++ ys) s = some s'' →
    ∃ mid, applyChain hash xs s = some mid ∧ applyChain hash ys mid = some s'' := by
  intro xs
  induction xs with
  | nil => intro ys s s'' h; exact ⟨s, rfl, h⟩
  | cons b rest ih =>
    intro ys s s'' h
    simp only [List.cons_append, applyChain] at h ⊢
    cases happ : IndexerService.applyBlock hash b s with
    | mk r s1 =>
      rw [happ] at h
      dsimp only at h ⊢
      by_cases hr : r.success = true
      · rw [if_pos hr] at h ⊢
        exact ih h
      · rw [if_neg hr] at h
        cases h

theorem applyChain_rollback {hash : String → String} {k : Rat} :
    ∀ {bs : List Block} {s s'' : DbState},
    Inv s → k ≤ Database.getCurrentHeight s →
    applyChain hash bs s = some s'' →
    Database.rollbackToHeight k s'' = Database.rollbackToHeight k s := by
  intro bs
  induction bs with
  | nil =>
    intro s s'' _ _ h
    injection h with h'
    rw [← h']
  | cons b rest ih =>
    intro s s'' hInv hk h
    simp only [applyChain] at h
    cases happ : IndexerService.applyBlock hash b s with
    | mk r s1 =>
      rw [happ] at h
      dsimp only at h
      by_cases hr : r.success = true
      · rw [if_pos hr] at h
        obtain ⟨hval, hsave⟩ := applyBlock_ok happ hr
        obtain ⟨hInv1, hlen1, _⟩ := save_ok_inv hInv hval hsave
        have hk1 : k ≤ Database.getCurrentHeight s1 := by
          rw [hInv1.curHeight, hlen1]
          rw [hInv.curHeight] at hk
          push_cast
          linarith
        have habs := rollbackToHeight_absorb hInv hk hval hsave
        rw [ih hInv1 hk1 h, habs]
      · rw [if_neg hr] at h
        cases h

/-! ## C2: rollback is the exact inverse of apply -/

/-- C2: for any chain of blocks successfully applied from an empty store
(validation plus save), rolling the final state back to height `k`
reproduces, field for field (blocks, transactions, outputs with their
spent flags and spending references, hence also every balance), the state
that existed right after block `k` was applied. -/
theorem rollbackToHeight_exact_inverse_of_apply (hash : String → String)
    (bs : List Block) (k : Nat) (sN sk : DbState)
    (hN : applyChain hash bs emptyDb = some sN)
    (hk : applyChain hash (bs.take k) emptyDb = some sk) :
    Database.rollbackToHeight (k : Rat) sN = sk := by
  obtain ⟨mid, hmid, hdrop⟩ :=
    @applyChain_append hash (bs.take k) (bs.drop k) emptyDb sN
      (by rw [List.take_append_drop]; exact hN)
  have hmidk : mid = sk := Option.some.inj (hmid.symm.trans hk)
  subst hmidk
  obtain ⟨hInvk, hlenk⟩ := @applyChain_inv hash (bs.take k) emptyDb mid inv_emptyDb hmid
  have hlen : mid.blocks.length = min k bs.length := by
    rw [hlenk]
    simp [emptyDb]
  by_cases hkN : k ≤ bs.length
  · have hmin : mid.blocks.length = k := by rw [hlen]; exact min_eq_left hkN
    have hkcur : (k : Rat) ≤ Database.getCurrentHeight mid := by
      rw [hInvk.curHeight, hmin]
    rw [applyChain_rollback hInvk hkcur hdrop]
    refine rollbackToHeight_fix ?_ ?_ ?_
    · intro x hx
      have hle := inv_block_height_le hInvk x hx
      rw [hmin] at hle
      exact hle
    · intro t htm
      have hle := inv_tx_height_le hInvk t htm
      rw [hmin] at hle
      exact hle
    · intro o hom
      have hle := inv_out_height_le hInvk o hom
      rw [hmin] at hle
      exact hle
  · have hdropnil : bs.drop k = [] := List.drop_eq_nil_of_le (le_of_not_le hkN)
    rw [hdropnil] at hdrop
    have hsN : mid = sN := Option.some.inj hdrop
    subst hsN
    have hmin : mid.blocks.length = bs.length := by
      rw [hlen]
      exact min_eq_right (le_of_not_le hkN)
    have hcast : (mid.blocks.length : Rat) ≤ (k : Rat) := by
      rw [hmin]
      exact_mod_cast le_of_not_le hkN
    refine rollbackToHeight_fix ?_ ?_ ?_
    · intro x hx
      exact le_trans (inv_block_height_le hInvk x hx) hcast
    · intro t htm
      exact le_trans (inv_tx_height_le hInvk t htm) hcast
    · intro o hom
      exact le_trans (inv_out_height_le hInvk o hom) hcast

/-- A zero-value two-block chain: block 1 creates `(t1, 0)` for `addrA`,
block 2 spends it into `addrB` (value 0 keeps the sums balanced, which is
the only kind of chain the sum rule lets through — see C3). -/
def wb1 : Block := createTestBlock idHash 1 [⟨"t1", [], [⟨"addrA", 0⟩]⟩]

/-- Second block of the witness chain. -/
def wb2 : Block := createTestBlock idHash 2 [⟨"t2", [⟨"t1", 0⟩], [⟨"addrB", 0⟩]⟩]

/-- The state after applying both witness blocks. -/
def wState2 : DbState :=
  match applyChain idHash [wb1, wb2] emptyDb with
  | some s => s
  | none => emptyDb

/-- The state after applying only the first witness block. -/
def wState1 : DbState :=
  match applyChain idHash [wb1] emptyDb with
  | some s => s
  | none => emptyDb

theorem rollbackToHeight_exact_inverse_of_apply_witness :
    Database.rollbackToHeight ((1 : Nat) : Rat) wState2 = wState1 :=
  rollbackToHeight_exact_inverse_of_apply idHash [wb1, wb2] 1 wState2 wState1
    (by with_unfolding_all rfl) (by with_unfolding_all rfl)

/-! ## C4: height monotonicity -/

theorem processChain_inv {hash : String → String} : ∀ {raws : List JsValue} {s : DbState},
    Inv s → Inv (processChain hash raws s) := by
  intro raws
  induction raws with
  | nil => intro s h; exact h
  | cons v rest ih =>
    intro s h
    simp only [processChain]
    by_cases hr : (IndexerService.processBlock hash v s).1.success = true
    · cases hp : IndexerService.processBlock hash v s with
      | mk r s1 =>
        show Inv (processChain hash rest s1)
        rw [hp] at hr
        obtain ⟨_, hval, hsave⟩ := processBlock_ok hp hr
        exact ih (save_ok_inv h hval hsave).1
    · simp only [Bool.not_eq_true] at hr
      rw [processBlock_fail_state hr]
      exact ih h

/-- C4: starting from an empty store, the stored block heights after any
sequence of submissions are exactly `1, 2, …, currentHeight` with no gaps
or repeats; a schema-valid block whose height differs from
`currentHeight + 1` is rejected with an error naming the expected and the
provided height and leaves the state unchanged (this covers resubmitting
an already-applied height, which is at most `currentHeight`); and every
rejected submission leaves the state unchanged. -/
theorem processBlock_height_monotonic (hash : String → String) :
    (∀ raws : List JsValue,
      (processChain hash raws emptyDb).blocks.map BlockRow.height
        = heightSeq (processChain hash raws emptyDb).blocks.length
      ∧ Database.getCurrentHeight (processChain hash raws emptyDb)
        = ((processChain hash raws emptyDb).blocks.length : Rat))
    ∧ (∀ (raw : JsValue) (s : DbState), (validateBlockSchema raw).isValid = true →
        (jsToBlock raw).height ≠ Database.getCurrentHeight s + 1 →
        IndexerService.processBlock hash raw s
          = (⟨false, some (let expected := Database.getCurrentHeight s + 1
                           let got := (jsToBlock raw).height
                           s!"Invalid height. Expected {expected}, got {got}")⟩, s))
    ∧ (∀ (raw : JsValue) (s : DbState),
        (IndexerService.processBlock hash raw s).1.success = false →
        (IndexerService.processBlock hash raw s).2 = s) := by
  refine ⟨?_, ?_, ?_⟩
  · intro raws
    have hInv := @processChain_inv hash raws emptyDb inv_emptyDb
    exact ⟨hInv.blocksShape, hInv.curHeight⟩
  · intro raw s hschema hheight
    have hv : BlockValidator.validateHeight s (jsToBlock raw).height
        = ⟨false, some (let expected := Database.getCurrentHeight s + 1
                        let got := (jsToBlock raw).height
                        s!"Invalid height. Expected {expected}, got {got}")⟩ := by
      unfold BlockValidator.validateHeight
      rw [if_pos hheight]
    have hvb : BlockValidator.validateBlock hash s (jsToBlock raw)
        = ⟨false, some (let expected := Database.getCurrentHeight s + 1
                        let got := (jsToBlock raw).height
                        s!"Invalid height. Expected {expected}, got {got}")⟩ := by
      unfold BlockValidator.validateBlock
      rw [hv]
      rfl
    simp only [IndexerService.processBlock]
    rw [if_neg (by simp [hschema])]
    simp only [IndexerService.applyBlock, hvb]
    simp
  · intro raw s h
    exact processBlock_fail_state h

theorem processBlock_height_monotonic_witness :
    ((processChain idHash [okRaw] emptyDb).blocks.map BlockRow.height
      = heightSeq (processChain idHash [okRaw] emptyDb).blocks.length)
    ∧ IndexerService.processBlock idHash wrongHeightRaw emptyDb
      = (⟨false, some "Invalid height. Expected 1, got 5"⟩, emptyDb)
    ∧ (IndexerService.processBlock idHash JsValue.null emptyDb).2 = emptyDb := by
  refine ⟨((processBlock_height_monotonic idHash).1 [okRaw]).1, ?_, ?_⟩
  · exact ((processBlock_height_monotonic idHash).2.1 wrongHeightRaw emptyDb (by decide)
      (by with_unfolding_all decide)).trans (by with_unfolding_all decide)
  · exact (processBlock_height_monotonic idHash).2.2 JsValue.null emptyDb (by decide)
